import Mathlib

/-!
# CFD-Lab: the time-advancement driver and the domain decomposition of `Case.cpp`

A shallow embedding of `src/src/Case.cpp`:

* the sub-domain descriptors computed by the coordinating rank (`Case::Case`, rank-0
  branch, and `Case::build_domain`) and their decoding by the other ranks;
* the main loop of `Case::simulate` with its inner pressure-Poisson loop, as functions on
  an explicit state that also record the trace of calls made to the collaborators;
* the boundary list built by `Case::Case`, the cell loop of the particle branch of
  `Case::simulate` on the field matrices, and `Case::set_file_names`.

C++ `int` is embedded as `Int`, with `/` and `%` on `int` as truncating division
(`Int.tdiv`, `Int.tmod`); an `int` that leaves the range of 32 bits is undefined in C++ and
is outside the model.  `double` is embedded as the type `Double` of the values of IEEE 754
binary64: NaN, the two infinities and the finite numbers, with sums, products and quotients
rounded to nearest, ties to even, and comparisons that are false on NaN.  The collaborators
that are not part of `Case.cpp` (solver, fields, grid, particles) are oracles indexed by the
timestep and, for the solver, by the sweep.  A `std::string` is embedded as the list of its
characters.
-/

namespace CFDLab

/-! ## The type `double`

The values of IEEE 754 binary64 and its operations as `Case.cpp` uses them: addition,
multiplication, division and conversion from `int` round to nearest, ties to even; the
comparisons are false whenever an operand is NaN.  The finite values are rationals, a
superset of the representable ones (`Double.representable` tells them apart), and the two
zeros are one value: in `Case.cpp` the sign of a zero can only show in the sign of an
infinite quotient, whose conversion to `int` is undefined. -/

/-- A value of type `double`: NaN, an infinity, or a finite number. -/
inductive Double where
  | nan
  | inf (negative : Bool)
  | fin (q : ℚ)
deriving DecidableEq

namespace Double

/-- The number of binary digits of `n`, for `n` below `2 ^ fuel`. -/
def bits : Nat → Nat → Nat
  | 0, _ => 0
  | fuel + 1, n => if n = 0 then 0 else bits fuel (n / 2) + 1

/-- Rounding of a positive integer quotient `num / den` to the nearest integer, ties to the
even one. -/
def round_half_even (num den : Nat) : Nat :=
  if 2 * (num % den) < den then num / den
  else if den < 2 * (num % den) then num / den + 1
  else num / den + (num / den) % 2

/-- The binary exponent of the positive quotient `n / d`: the integer `x` with
`2 ^ x ≤ n / d < 2 ^ (x + 1)`. -/
def exponent (n d : Nat) : Int :=
  let k : Int := (bits n n : Int) - (bits d d : Int)
  if d * 2 ^ k.toNat ≤ n * 2 ^ (-k).toNat then k else k - 1

/-- Rounding of the positive quotient `n / d` to 53 binary digits, to nearest, ties to even:
the result is a multiple `m * 2 ^ e` of the unit `2 ^ e` in the last place, where `e` is 52
below the binary exponent of `n / d` and at least -1074. -/
def round_magnitude (n d : Nat) : ℚ :=
  let e : Int := max (exponent n d - 52) (-1074)
  let m := round_half_even (n * 2 ^ (-e).toNat) (d * 2 ^ e.toNat)
  mkRat ((m * 2 ^ e.toNat : Nat) : Int) (2 ^ (-e).toNat)

/-- Rounding of a rational to binary64, to nearest, ties to even; a magnitude that rounds to
`2 ^ 1024` or more gives an infinity. -/
def round (q : ℚ) : Double :=
  if q = 0 then fin 0
  else
    let v := round_magnitude q.num.natAbs q.den
    if 2 ^ 1024 ≤ v then inf (decide (q < 0))
    else fin (if q < 0 then -v else v)

/-- The conversion of an `int` to `double`. -/
def of_int (n : Int) : Double := round (n : ℚ)

/-- The sum `a + b` of two doubles. -/
def add : Double → Double → Double
  | nan, _ => nan
  | _, nan => nan
  | inf s, inf s' => if s = s' then inf s else nan
  | inf s, fin _ => inf s
  | fin _, inf s => inf s
  | fin a, fin b => round (a + b)

/-- The product `a * b` of two doubles. -/
def mul : Double → Double → Double
  | nan, _ => nan
  | _, nan => nan
  | inf s, inf s' => inf (xor s s')
  | inf s, fin b => if b = 0 then nan else inf (xor s (decide (b < 0)))
  | fin a, inf s => if a = 0 then nan else inf (xor s (decide (a < 0)))
  | fin a, fin b => round (a * b)

/-- The quotient `a / b` of two doubles; a zero divisor counts as `+0`. -/
def div : Double → Double → Double
  | nan, _ => nan
  | _, nan => nan
  | inf _, inf _ => nan
  | inf s, fin b => inf (xor s (decide (b < 0)))
  | fin _, inf _ => fin 0
  | fin a, fin b =>
    if b = 0 then (if a = 0 then nan else inf (decide (a < 0))) else round (a / b)

/-- The comparison `a < b` of two doubles, false when one of them is NaN. -/
def lt : Double → Double → Bool
  | nan, _ => false
  | _, nan => false
  | inf s, inf s' => s && !s'
  | inf s, fin _ => s
  | fin _, inf s => !s
  | fin a, fin b => decide (a < b)

/-- The comparison `a <= b` of two doubles, false when one of them is NaN. -/
def le : Double → Double → Bool
  | nan, _ => false
  | _, nan => false
  | inf s, inf s' => s || !s'
  | inf s, fin _ => s
  | fin _, inf s => !s
  | fin a, fin b => decide (a ≤ b)

instance : Add Double := ⟨add⟩
instance : Mul Double := ⟨mul⟩
instance : Div Double := ⟨div⟩
instance : Zero Double := ⟨fin 0⟩
instance : One Double := ⟨fin 1⟩
instance : LT Double := ⟨fun a b => lt a b = true⟩
instance : LE Double := ⟨fun a b => le a b = true⟩
instance (a b : Double) : Decidable (a < b) := inferInstanceAs (Decidable (lt a b = true))
instance (a b : Double) : Decidable (a ≤ b) := inferInstanceAs (Decidable (le a b = true))

/-- The value is one that a `double` can hold: NaN, an infinity, or a finite number that
rounding leaves as it is. -/
def representable : Double → Prop
  | fin q => round q = fin q
  | _ => True

instance (a : Double) : Decidable (representable a) := by
  cases a <;> unfold representable <;> infer_instance

/-- The conversion of the value to `int` is defined in C++: the value is finite and its
truncation toward zero is an `int`, a number from `-2 ^ 31` to `2 ^ 31 - 1`. -/
def int_range : Double → Prop
  | fin q => -(2 ^ 31) ≤ q.num.tdiv (q.den : Int) ∧ q.num.tdiv (q.den : Int) < 2 ^ 31
  | _ => False

instance (a : Double) : Decidable (int_range a) := by
  cases a <;> unfold int_range <;> infer_instance

end Double

/-- The constant `std::numeric_limits<double>::max()`, the largest finite double. -/
def DBL_MAX : Double := Double.fin ((2 ^ 53 - 1) * 2 ^ 971)

/-- Conversion of a `double` to `int`: truncation toward zero.  Where C++ leaves the
conversion undefined (`Double.int_range` is false: NaN, the infinities, a truncation that is
no `int`) the value here is arbitrary: 0 for NaN and the infinities, the truncation itself
otherwise. -/
def double_to_int : Double → Int
  | Double.fin q => q.num.tdiv (q.den : Int)
  | _ => 0

/-! ## Sub-domain descriptors -/

/-- The sub-domain descriptor `Domain`.  Slots 0, 1, 2, 3 of `domain_neighbors` are the
east, north, west and south neighbour ranks. -/
structure Domain where
  imin : Int
  jmin : Int
  imax : Int
  jmax : Int
  size_x : Int
  size_y : Int
  dx : Double
  dy : Double
  domain_size_x : Int
  domain_size_y : Int
  domain_neighbors : List Int
deriving DecidableEq

/-- Modelled from the spec: the declaration of `Domain` (`Domain.hpp`) is not among the
sources.  A freshly constructed descriptor holds, in each of its four neighbour slots, the
"sentinel meaning no neighbor"; `procNull` is that sentinel, the MPI constant
`MPI_PROC_NULL`.  The integer fields are all assigned before they are read. -/
def Domain.fresh (procNull : Int) : Domain :=
  { imin := 0, jmin := 0, imax := 0, jmax := 0, size_x := 0, size_y := 0,
    dx := 0, dy := 0, domain_size_x := 0, domain_size_y := 0,
    domain_neighbors := [procNull, procNull, procNull, procNull] }

/-- From `Case::Case`, lines 149-153: the part of the descriptor every rank sets itself. -/
def Case_domain_common (procNull : Int) (xlength ylength : Double) (imax jmax : Int) : Domain :=
  { Domain.fresh procNull with
    dx := xlength / Double.of_int imax
    dy := ylength / Double.of_int jmax
    domain_size_x := imax
    domain_size_y := jmax }

/-- From `Case::Case`, lines 155-174: the descriptor the coordinating rank computes for
itself. -/
def Case_coordinator (procNull : Int) (xlength ylength : Double) (imax jmax iproc jproc : Int) :
    Domain :=
  let curr_rank : Int := 0
  let domain := Case_domain_common procNull xlength ylength imax jmax
  let domain := { domain with imin := (curr_rank.tmod iproc) * (imax.tdiv iproc) }
  let domain := { domain with
    jmin := ((curr_rank.tdiv iproc).tmod jproc) * (jmax.tdiv jproc) }
  let domain := { domain with imax := (curr_rank.tmod iproc + 1) * (imax.tdiv iproc) + 2 }
  let domain := { domain with
    jmax := ((curr_rank.tdiv iproc).tmod jproc + 1) * (jmax.tdiv jproc) + 2 }
  let domain := { domain with size_x := imax.tdiv iproc }
  let domain := { domain with size_y := jmax.tdiv jproc }
  let domain :=
    if curr_rank.tmod iproc + 1 < iproc then
      { domain with domain_neighbors := domain.domain_neighbors.set 0 (curr_rank + 1) }
    else domain
  let domain :=
    if curr_rank.tmod iproc - 1 ≥ 0 then
      { domain with domain_neighbors := domain.domain_neighbors.set 2 (curr_rank - 1) }
    else domain
  let domain :=
    if curr_rank + iproc ≤ iproc * jproc - 1 then
      { domain with domain_neighbors := domain.domain_neighbors.set 1 (curr_rank + iproc) }
    else domain
  let domain :=
    if curr_rank - iproc ≥ 0 then
      { domain with domain_neighbors := domain.domain_neighbors.set 3 (curr_rank - iproc) }
    else domain
  domain

/-- The local `imin` of `build_domain`, line 650. -/
def build_domain_imin (imax_domain iproc curr_rank : Int) : Int :=
  (curr_rank.tmod iproc) * (imax_domain.tdiv iproc)

/-- The local `jmin` of `build_domain`, line 652. -/
def build_domain_jmin (jmax_domain iproc jproc curr_rank : Int) : Int :=
  ((curr_rank.tdiv iproc).tmod jproc) * (jmax_domain.tdiv jproc)

/-- The local `imax` of `build_domain`, lines 654-659. -/
def build_domain_imax (imax_domain iproc curr_rank : Int) : Int :=
  if curr_rank.tmod iproc ≠ iproc - 1 then
    (curr_rank.tmod iproc + 1) * (imax_domain.tdiv iproc) + 2
  else
    imax_domain + 2

/-- The local `jmax` of `build_domain`, lines 661-666. -/
def build_domain_jmax (jmax_domain iproc jproc curr_rank : Int) : Int :=
  if curr_rank.tdiv iproc ≠ jproc - 1 then
    ((curr_rank.tdiv iproc).tmod jproc + 1) * (jmax_domain.tdiv jproc) + 2
  else
    jmax_domain + 2

/-- The local `size_x` of `build_domain`, line 669. -/
def build_domain_size_x (imax_domain iproc curr_rank : Int) : Int :=
  build_domain_imax imax_domain iproc curr_rank
    - build_domain_imin imax_domain iproc curr_rank - 2

/-- The local `size_y` of `build_domain`, line 671. -/
def build_domain_size_y (jmax_domain iproc jproc curr_rank : Int) : Int :=
  build_domain_jmax jmax_domain iproc jproc curr_rank
    - build_domain_jmin jmax_domain iproc jproc curr_rank - 2

/-- The east entry of `build_domain`, lines 674-680 (`domain_neighbor_e` or
`MPI_PROC_NULL`). -/
def build_domain_neighbor_e (procNull iproc curr_rank : Int) : Int :=
  if curr_rank.tmod iproc + 1 < iproc then curr_rank + 1 else procNull

/-- The west entry of `build_domain`, lines 681-687. -/
def build_domain_neighbor_w (procNull iproc curr_rank : Int) : Int :=
  if curr_rank.tmod iproc - 1 ≥ 0 then curr_rank - 1 else procNull

/-- The north entry of `build_domain`, lines 688-694. -/
def build_domain_neighbor_n (procNull iproc jproc curr_rank : Int) : Int :=
  if curr_rank + iproc < iproc * jproc then curr_rank + iproc else procNull

/-- The south entry of `build_domain`, lines 695-701. -/
def build_domain_neighbor_s (procNull iproc curr_rank : Int) : Int :=
  if curr_rank - iproc ≥ 0 then curr_rank - iproc else procNull

/-- The vector `data` of one loop iteration of `build_domain` after its ten
`push_back`s. -/
def build_domain_data (procNull imax_domain jmax_domain iproc jproc curr_rank : Int) :
    List Int :=
  let data : List Int := []
  let data := data ++ [build_domain_imin imax_domain iproc curr_rank]
  let data := data ++ [build_domain_jmin jmax_domain iproc jproc curr_rank]
  let data := data ++ [build_domain_imax imax_domain iproc curr_rank]
  let data := data ++ [build_domain_jmax jmax_domain iproc jproc curr_rank]
  let data := data ++ [build_domain_size_x imax_domain iproc curr_rank]
  let data := data ++ [build_domain_size_y jmax_domain iproc jproc curr_rank]
  let data := data ++ [build_domain_neighbor_e procNull iproc curr_rank]
  let data := data ++ [build_domain_neighbor_w procNull iproc curr_rank]
  let data := data ++ [build_domain_neighbor_n procNull iproc jproc curr_rank]
  let data := data ++ [build_domain_neighbor_s procNull iproc curr_rank]
  data

/-- A point-to-point message `MPI_Send(data, 10, MPI_INT, dest, tag, ...)`. -/
structure Message where
  dest : Int
  tag : Int
  data : List Int
deriving DecidableEq

/-- The function `Case::build_domain`: the messages sent by the loop
`for (curr_rank = 1; curr_rank < iproc * jproc; curr_rank++)`, in order. -/
def build_domain (procNull imax_domain jmax_domain iproc jproc : Int) : List Message :=
  (List.range' 1 ((iproc * jproc).toNat - 1)).map fun (k : Nat) =>
    { dest := (k : Int), tag := (k : Int),
      data := build_domain_data procNull imax_domain jmax_domain iproc jproc (k : Int) }

/-- The call `MPI_Recv(..., 0, Communication::rank, ...)` on rank `rank`: the first message of the
coordinator addressed to `rank` with tag `rank`, if there is one. -/
def MPI_Recv (sent : List Message) (rank : Int) : Option (List Int) :=
  (sent.find? fun m => decide (m.dest = rank) && decide (m.tag = rank)).map Message.data

/-- From `Case::Case`, lines 177-190: the descriptor a non-coordinating rank decodes from the
ten received integers. -/
def Case_worker (procNull : Int) (xlength ylength : Double) (imax jmax : Int)
    (rec_data : List Int) : Domain :=
  let domain := Case_domain_common procNull xlength ylength imax jmax
  let domain := { domain with imin := rec_data.getD 0 0 }
  let domain := { domain with jmin := rec_data.getD 1 0 }
  let domain := { domain with imax := rec_data.getD 2 0 }
  let domain := { domain with jmax := rec_data.getD 3 0 }
  let domain := { domain with size_x := rec_data.getD 4 0 }
  let domain := { domain with size_y := rec_data.getD 5 0 }
  let domain :=
    { domain with domain_neighbors := domain.domain_neighbors.set 0 (rec_data.getD 6 0) }
  let domain :=
    { domain with domain_neighbors := domain.domain_neighbors.set 2 (rec_data.getD 7 0) }
  let domain :=
    { domain with domain_neighbors := domain.domain_neighbors.set 1 (rec_data.getD 8 0) }
  let domain :=
    { domain with domain_neighbors := domain.domain_neighbors.set 3 (rec_data.getD 9 0) }
  domain

/-- The descriptor rank `rank` holds after `Case::Case`: the coordinator's own for rank 0,
and for another rank the one decoded from the message `build_domain` sent to it (`none`
when no message is addressed to it, where the receive would block). -/
def rank_domain (procNull : Int) (xlength ylength : Double) (imax jmax iproc jproc : Int)
    (rank : Int) : Option Domain :=
  if rank = 0 then
    some (Case_coordinator procNull xlength ylength imax jmax iproc jproc)
  else
    (MPI_Recv (build_domain procNull imax jmax iproc jproc) rank).map
      (Case_worker procNull xlength ylength imax jmax)

/-- Global cell `(i, j)` is an interior cell of the tile of `d`:
`[imin, imin + size_x) x [jmin, jmin + size_y)`. -/
def Domain.interior (d : Domain) (i j : Int) : Prop :=
  d.imin ≤ i ∧ i < d.imin + d.size_x ∧ d.jmin ≤ j ∧ j < d.jmin + d.size_y

instance (d : Domain) (i j : Int) : Decidable (d.interior i j) := by
  unfold Domain.interior; infer_instance

/-- The east neighbour, slot 0 of `domain_neighbors`. -/
def Domain.east (d : Domain) : Int := d.domain_neighbors.getD 0 0

/-- The north neighbour, slot 1 of `domain_neighbors`. -/
def Domain.north (d : Domain) : Int := d.domain_neighbors.getD 1 0

/-- The west neighbour, slot 2 of `domain_neighbors`. -/
def Domain.west (d : Domain) : Int := d.domain_neighbors.getD 2 0

/-- The south neighbour, slot 3 of `domain_neighbors`. -/
def Domain.south (d : Domain) : Int := d.domain_neighbors.getD 3 0

/-! ## The time-advancement driver `Case::simulate` -/

/-- Modelled from the spec: `cell_type` of `Enums.hpp`, which is not among the sources.  The
classification tags of the data model: fluid, the obstacle and wall variants, inlet, outlet,
moving wall, free slip, adiabatic, surface, empty. -/
inductive cell_type where
  | FLUID
  | FIXED_WALL
  | MOVING_WALL
  | INLET
  | OUTLET
  | ADIABATIC
  | FREE_SLIP
  | SURFACE
  | EMPTY
deriving DecidableEq

/-- Modelled from the spec: the `Particle` of `Particle.hpp`, which is not among the sources:
a position `(x_pos, y_pos)` and a velocity `(u, v)`. -/
structure Particle where
  x_pos : Double
  y_pos : Double
  u : Double
  v : Double
deriving DecidableEq

/-- The field matrices handed to `Communication::communicate`. -/
inductive Matrix where
  | t_matrix
  | f_matrix
  | g_matrix
  | p_matrix
  | u_matrix
  | v_matrix
deriving DecidableEq

/-- The calls `Case::simulate` makes to its collaborators and the lines it prints, in the
order in which they happen. -/
inductive Event where
  /-- The call `_boundaries[i]->apply(_field)`. -/
  | boundary_apply (i : Nat)
  /-- The call `_boundaries[i]->apply_pressure(_field)`. -/
  | boundary_apply_pressure (i : Nat)
  | output_vtk (timestep : Int) (rank : Int)
  | calculate_dt
  | reset_fluid_cells
  /-- The cell loop of lines 367-382. -/
  | clear_cells
  | surface_update_cells
  | surface_apply_black
  | surface_apply_pressure
  | calculate_temperature
  | communicate (m : Matrix)
  | calculate_fluxes
  | calculate_rs
  /-- The message "Pressure poisson solver did not converge to the given tolerance". -/
  | not_converged (iter : Int) (res : Double)
  /-- The call `_pressure_solver->solve(_field, _grid, _boundaries)`. -/
  | solve
  | calculate_velocities
  /-- The loop over the particles of lines 443-447. -/
  | advance_particles
  /-- The line printed every fifth timestep. -/
  | progress (timestep : Int)
deriving DecidableEq

/-- The members of `Case` that `simulate` reads, and its collaborators.  A collaborator whose
code is not part of `Case.cpp` is an oracle: `calculate_dt n` is what
`_field.calculate_dt` returns in the step entered with `timestep = n`, `solve n k` the
residual `_pressure_solver->solve` returns in that step when called with `iter = k`,
`cell n i j` is `_grid.cell(i, j).type()` in that step and `advance n` what
`calculate_velocities` followed by `advance_particle(dt)` makes of a particle. -/
structure Case where
  t_end : Double
  /-- The member `_output_freq` on entry to `simulate`. -/
  output_freq : Double
  tolerance : Double
  max_iter : Int
  /-- The length `_boundaries.size()`. -/
  boundaries : Nat
  /-- The rank `Communication::rank`. -/
  rank : Int
  energy_eq : Bool
  /-- The descriptor `_grid.domain()`. -/
  domain : Domain
  dx : Double
  dy : Double
  /-- The value `_field.dt()`. -/
  field_dt : Double
  particle : List Particle
  calculate_dt : Int → Double
  solve : Int → Int → Double
  cell : Int → Int → Int → cell_type
  advance : Int → Particle → Particle

/-- The local variables of `simulate` and the members it changes. -/
structure SimState where
  t : Double
  dt : Double
  timestep : Int
  /-- The member `_output_freq`, the next output threshold. -/
  output_freq : Double
  iter : Int
  res : Double
  total_iter : Int
  /-- The list `_grid.particle()`. -/
  particle : List Particle

/-- The loop `for (i = 0; i < _boundaries.size(); i++) _boundaries[i]->apply(_field)`. -/
def apply_boundaries (c : Case) : List Event :=
  (List.range c.boundaries).map Event.boundary_apply

/-- The loop `for (i = 0; i < _boundaries.size(); i++)
_boundaries[i]->apply_pressure(_field)`. -/
def apply_pressure_boundaries (c : Case) : List Event :=
  (List.range c.boundaries).map Event.boundary_apply_pressure

/-- Lines 421-428: one pass through the body of the inner loop after the `break` test. -/
def sweep (c : Case) (s : SimState) : SimState × List Event :=
  ({ s with
      res := c.solve s.timestep s.iter
      iter := s.iter + 1
      total_iter := s.total_iter + 1 },
    [Event.communicate Matrix.p_matrix] ++ apply_pressure_boundaries c ++ [Event.solve])

/-- Lines 407-430: the inner loop `while (res > _tolerance)`. -/
def pressure_loop (c : Case) (s : SimState) : SimState × List Event :=
  if c.tolerance < s.res then
    if c.max_iter ≤ s.iter then
      (s, if c.rank = 0 then [Event.not_converged s.iter s.res] else [])
    else
      let r := pressure_loop c (sweep c s).1
      (r.1, (sweep c s).2 ++ r.2)
  else
    (s, [])
termination_by (c.max_iter - s.iter).toNat
decreasing_by
  simp only [sweep]
  omega

/-- Lines 449-459: the first removal pass. -/
def remove_outside (d : Domain) (dx dy : Double) : List Particle → List Particle
  | [] => []
  | p :: ps =>
    if p.y_pos < Double.of_int (d.jmin + 1) * dy ∨ p.x_pos < Double.of_int (d.imin + 1) * dx ∨
        p.y_pos > Double.of_int (d.jmax - 1) * dy ∨ p.x_pos > Double.of_int (d.imax - 1) * dx then
      remove_outside d dx dy ps
    else
      p :: remove_outside d dx dy ps

/-- Lines 461-471: the second removal pass. -/
def remove_free_slip (cell : Int → Int → cell_type) (dx dy : Double) :
    List Particle → List Particle
  | [] => []
  | p :: ps =>
    let i := double_to_int (p.x_pos / dx)
    let j := double_to_int (p.y_pos / dy)
    if cell i j = cell_type.FREE_SLIP then
      remove_free_slip cell dx dy ps
    else
      p :: remove_free_slip cell dx dy ps

/-- Lines 331-343: the start of `simulate`, up to the main loop.  The locals `iter` and `res`
are declared without a value and first assigned in the main loop; they start here as 0. -/
def simulate_init (c : Case) : SimState × List Event :=
  ({ t := 0, dt := c.field_dt, timestep := 0, output_freq := c.output_freq,
     iter := 0, res := 0, total_iter := 1, particle := c.particle },
    apply_boundaries c ++ [Event.output_vtk 0 0])

/-- Lines 360-499: the body of the main loop; `output_counter` is `c.output_freq`. -/
def simulate_step (c : Case) (s : SimState) : SimState × List Event :=
  let n := s.timestep
  let s := { s with dt := c.calculate_dt n }
  let ev := [Event.calculate_dt]
  let ev := ev ++
    (if 0 < s.particle.length then
      [Event.reset_fluid_cells] ++
      (if 0 < s.particle.length then [Event.clear_cells] else []) ++
      [Event.surface_update_cells, Event.surface_apply_black]
    else [])
  let ev := ev ++
    (if c.energy_eq then
      [Event.calculate_temperature, Event.communicate Matrix.t_matrix]
    else [])
  let ev := ev ++ [Event.calculate_fluxes, Event.communicate Matrix.f_matrix,
    Event.communicate Matrix.g_matrix, Event.calculate_rs]
  let s := { s with iter := 0, res := DBL_MAX }
  let r := pressure_loop c s
  let s := r.1
  let ev := ev ++ r.2
  let ev := ev ++ [Event.calculate_velocities]
  let ev := ev ++
    (if 0 < s.particle.length then
      [Event.surface_apply_black, Event.surface_apply_pressure, Event.advance_particles]
    else [])
  let advanced := s.particle.map (c.advance n)
  let inside := remove_outside c.domain c.dx c.dy advanced
  let kept := remove_free_slip (c.cell n) c.dx c.dy inside
  let s := if 0 < s.particle.length then { s with particle := kept } else s
  let ev := ev ++ apply_boundaries c
  let ev := ev ++ [Event.communicate Matrix.u_matrix, Event.communicate Matrix.v_matrix]
  let s := { s with t := s.t + s.dt, timestep := s.timestep + 1 }
  let ev := ev ++
    (if c.rank = 0 ∧ s.timestep.tmod 5 = 0 then [Event.progress s.timestep] else [])
  if s.output_freq ≤ s.t then
    ({ s with output_freq := s.output_freq + c.output_freq },
      ev ++ [Event.output_vtk s.timestep c.rank])
  else
    (s, ev)

/-- Lines 359-502: the main loop `while (t <= _t_end)`, run for at most `fuel` passes;
`none` when the loop is still running after `fuel` passes. -/
def simulate_loop (c : Case) : Nat → SimState → Option (SimState × List Event)
  | 0, _ => none
  | fuel + 1, s =>
    if s.t ≤ c.t_end then
      (simulate_loop c fuel (simulate_step c s).1).map
        fun r => (r.1, (simulate_step c s).2 ++ r.2)
    else
      some (s, [])

/-- The function `Case::simulate`: the final state and the trace of the whole run, `none`
when the main loop is still running after `fuel` passes. -/
def simulate (c : Case) (fuel : Nat) : Option (SimState × List Event) :=
  (simulate_loop c fuel (simulate_init c).1).map
    fun r => (r.1, (simulate_init c).2 ++ r.2)

/-- The state at the start of pass `n` of the main loop (the state on leaving the loop when
`n` is the number of passes made). -/
def state_after (c : Case) : Nat → SimState
  | 0 => (simulate_init c).1
  | n + 1 => (simulate_step c (state_after c n)).1

/-- The trace of pass `n` of the main loop. -/
def step_trace (c : Case) (n : Nat) : List Event :=
  (simulate_step c (state_after c n)).2

/-- An event is a snapshot emission. -/
def Event.is_output : Event → Bool
  | Event.output_vtk _ _ => true
  | _ => false

/-- The number of snapshots emitted in the first `n` passes of the main loop. -/
def snapshots_emitted (c : Case) : Nat → Nat
  | 0 => 0
  | n + 1 => snapshots_emitted c n + (step_trace c n).countP Event.is_output

/-- The events the ordering contract of the boundary conditions is about: the `apply` and
`apply_pressure` of a boundary object, the solver sweep, the velocity correction, and the
halo exchanges of the pressure and of the two velocities. -/
def Event.ordered : Event → Bool
  | Event.boundary_apply _ => true
  | Event.boundary_apply_pressure _ => true
  | Event.solve => true
  | Event.calculate_velocities => true
  | Event.communicate Matrix.p_matrix => true
  | Event.communicate Matrix.u_matrix => true
  | Event.communicate Matrix.v_matrix => true
  | _ => false

/-- The cell `_grid.cell(i, j)` a particle is in, with `i = x_pos / dx` and `j = y_pos / dy`
converted to `int` (lines 463-464). -/
def containing_cell (cell : Int → Int → cell_type) (dx dy : Double) (p : Particle) : cell_type :=
  cell (double_to_int (p.x_pos / dx)) (double_to_int (p.y_pos / dy))

/-- The position of `p` is beyond none of the four bounds of the sub-domain `d` of the rank,
ghost margin excluded: none of `x < (imin + 1) dx`, `x > (imax - 1) dx`, `y < (jmin + 1) dy`,
`y > (jmax - 1) dy` holds, the products and the comparisons being those of `double`
arithmetic; a NaN coordinate is beyond no bound. -/
def in_subdomain_bounds (d : Domain) (dx dy : Double) (p : Particle) : Prop :=
  ¬ p.x_pos < Double.of_int (d.imin + 1) * dx ∧ ¬ p.x_pos > Double.of_int (d.imax - 1) * dx ∧
  ¬ p.y_pos < Double.of_int (d.jmin + 1) * dy ∧ ¬ p.y_pos > Double.of_int (d.jmax - 1) * dy

instance (d : Domain) (dx dy : Double) (p : Particle) :
    Decidable (in_subdomain_bounds d dx dy p) := by
  unfold in_subdomain_bounds; infer_instance

/-- The position of `p` lies within the bounds of the global domain, the cells
`1 .. domain_size_x` by `1 .. domain_size_y`: `dx ≤ x ≤ (domain_size_x + 1) dx` and
`dy ≤ y ≤ (domain_size_y + 1) dy`.  These are the bounds of the only sub-domain of a 1 x 1
process grid. -/
def in_global_bounds (d : Domain) (dx dy : Double) (p : Particle) : Prop :=
  dx ≤ p.x_pos ∧ p.x_pos ≤ Double.of_int (d.domain_size_x + 1) * dx ∧
  dy ≤ p.y_pos ∧ p.y_pos ≤ Double.of_int (d.domain_size_y + 1) * dy

instance (d : Domain) (dx dy : Double) (p : Particle) :
    Decidable (in_global_bounds d dx dy p) := by
  unfold in_global_bounds; infer_instance

/-- The particles that survive according to the claim "within the global domain bounds and
not in a free-slip cell", in their original order. -/
def survivors_by_global_bounds (d : Domain) (cell : Int → Int → cell_type) (dx dy : Double)
    (ps : List Particle) : List Particle :=
  ps.filter fun p =>
    decide (in_global_bounds d dx dy p) &&
      decide (containing_cell cell dx dy p ≠ cell_type.FREE_SLIP)

/-- The particles beyond none of the bounds of the sub-domain `d` and not in a free-slip
cell, in their original order. -/
def survivors_by_subdomain_bounds (d : Domain) (cell : Int → Int → cell_type) (dx dy : Double)
    (ps : List Particle) : List Particle :=
  ps.filter fun p =>
    decide (in_subdomain_bounds d dx dy p) &&
      decide (containing_cell cell dx dy p ≠ cell_type.FREE_SLIP)

/-- The residual the inner loop tests before sweep `k` of the pass entered with
`timestep = n`, sweeps counted from 0: `std::numeric_limits<double>::max()` before the first
sweep and then what the solver returned in the sweep before. -/
def residual (c : Case) (n : Int) (k : Nat) : Double :=
  if k = 0 then DBL_MAX else c.solve n ((k : Int) - 1)

/-- The residual after `k` sweeps as the claim on the inner loop takes it: +infinity before
the first sweep and then what the solver returned in sweep `k`. -/
def residual_from_infinity (c : Case) (n : Int) (k : Nat) : Double :=
  if k = 0 then Double.inf false else c.solve n ((k : Int) - 1)

/-- The output threshold after `k` emissions according to the code: the configured interval,
to which the interval has been added `k` times, one after the other, in `double`
arithmetic. -/
def threshold_after (interval : Double) : Nat → Double
  | 0 => interval
  | k + 1 => threshold_after interval k + interval

/-- A concrete configuration at which the general theorems are instantiated: one rank, a
4 x 2 grid, two boundary objects, a constant timestep of 5/16, the end time 1 and the
residuals 1/4, 1/8, ... -/
def sample_case : Case where
  t_end := 1
  output_freq := Double.fin (1 / 2)
  tolerance := Double.fin (1 / 8)
  max_iter := 3
  boundaries := 2
  rank := 0
  energy_eq := false
  domain := Case_coordinator (-1) (Double.fin 4) (Double.fin 2) 4 2 1 1
  dx := 1
  dy := 1
  field_dt := Double.fin (1 / 4)
  particle := []
  calculate_dt := fun _ => Double.fin (5 / 16)
  solve := fun _ k => Double.fin (1 / 2 ^ (k.toNat + 2))
  cell := fun _ _ _ => cell_type.FLUID
  advance := fun _ p => p

/-- The sample configuration with a solver whose residual is NaN. -/
def nan_residual_case : Case :=
  { sample_case with solve := fun _ _ => Double.nan }

/-- The sample configuration with the tolerance `std::numeric_limits<double>::max()`. -/
def largest_tolerance_case : Case :=
  { sample_case with tolerance := DBL_MAX }

/-- A run with the end time 2 whose first timestep has size 1 and whose later timesteps have
size `2 ^ -54`, a quarter of the distance from 1 to the next double. -/
def stalled_case : Case :=
  { sample_case with
    t_end := Double.fin 2
    calculate_dt := fun n => if n = 0 then Double.fin 1 else Double.fin (1 / 2 ^ 54) }

/-- The sample configuration with a timestep size that is NaN. -/
def nan_dt_case : Case :=
  { sample_case with calculate_dt := fun _ => Double.nan }

/-- A run with the output interval 0.1, that is the double nearest to 1/10, timesteps of
size 1 and the end time 4: five passes, each with a snapshot. -/
def tenth_case : Case :=
  { sample_case with
    t_end := Double.fin 4
    output_freq := Double.round (1 / 10)
    calculate_dt := fun _ => Double.fin 1 }

/-- The sample configuration on rank 0 of a 2 x 1 process grid, with one particle at
`(5/2, 3/2)` and one at `(7/2, 3/2)`, both in fluid cells and at rest. -/
def particle_case : Case :=
  { sample_case with
    domain := Case_coordinator (-1) (Double.fin 4) (Double.fin 2) 4 2 2 1
    particle := [{ x_pos := Double.fin (5 / 2), y_pos := Double.fin (3 / 2), u := 0, v := 0 },
      { x_pos := Double.fin (7 / 2), y_pos := Double.fin (3 / 2), u := 0, v := 0 }] }

/-! ## The boundary list built by `Case::Case` -/

/-- The six condition types of the boundary list. -/
inductive condition_type where
  | moving_wall
  | inlet
  | outlet
  | fixed_wall
  | adiabatic
  | free_slip
deriving DecidableEq

/-- A map `std::map<int, double>`, as the list of its entries. -/
abbrev wall_map := List (Int × Double)

/-- The call `m.insert(std::pair<int, double>(key, value))`: a key already present keeps
its value. -/
def wall_map_insert (m : wall_map) (key : Int) (value : Double) : wall_map :=
  if m.any (fun e => decide (e.1 = key)) then m else m ++ [(key, value)]

/-- Modelled from the spec: the boundary classes of `Boundary.hpp`, which is not among the
sources, as "a closed tagged-variant set" with "a per-variant payload (prescribed values /
temperature map)": each object owns its cells, here their coordinates; the fixed wall built
with one argument carries no temperature map (`none`). -/
inductive Boundary where
  | MovingWallBoundary (cells : List (Int × Int)) (wall_velocity : Double)
  | InletBoundary (cells : List (Int × Int)) (UIN VIN : Double)
  | OutletBoundary (cells : List (Int × Int))
  | FixedWallBoundary (cells : List (Int × Int)) (wall_temp : Option wall_map)
  | AdiabaticBoundary (cells : List (Int × Int))
  | FreeSlipBoundary (cells : List (Int × Int))
deriving DecidableEq

/-- The condition type of a boundary object. -/
def Boundary.type : Boundary → condition_type
  | Boundary.MovingWallBoundary _ _ => condition_type.moving_wall
  | Boundary.InletBoundary _ _ _ => condition_type.inlet
  | Boundary.OutletBoundary _ => condition_type.outlet
  | Boundary.FixedWallBoundary _ _ => condition_type.fixed_wall
  | Boundary.AdiabaticBoundary _ => condition_type.adiabatic
  | Boundary.FreeSlipBoundary _ => condition_type.free_slip

/-- The cells a boundary object owns. -/
def Boundary.cells : Boundary → List (Int × Int)
  | Boundary.MovingWallBoundary cells _ => cells
  | Boundary.InletBoundary cells _ _ => cells
  | Boundary.OutletBoundary cells => cells
  | Boundary.FixedWallBoundary cells _ => cells
  | Boundary.AdiabaticBoundary cells => cells
  | Boundary.FreeSlipBoundary cells => cells

/-- The cell sets the grid reports, by the names of the accessors of `Grid`. -/
structure GridCells where
  moving_wall_cells : List (Int × Int)
  inlet_cells : List (Int × Int)
  outlet_cells : List (Int × Int)
  fixed_wall_cells : List (Int × Int)
  adiabatic_cells : List (Int × Int)
  free_slip_cells : List (Int × Int)

/-- The cell set the grid reports for a condition type. -/
def GridCells.of_type (g : GridCells) : condition_type → List (Int × Int)
  | condition_type.moving_wall => g.moving_wall_cells
  | condition_type.inlet => g.inlet_cells
  | condition_type.outlet => g.outlet_cells
  | condition_type.fixed_wall => g.fixed_wall_cells
  | condition_type.adiabatic => g.adiabatic_cells
  | condition_type.free_slip => g.free_slip_cells

/-- From `Case::Case`, lines 129-136: the flag `boolenergy_eq` and the map `wall_temp`.
The identifiers `fixed_wall_3`, `fixed_wall_4` are the constants `cellID::fixed_wall_3` and
`cellID::fixed_wall_4` of `Enums.hpp`. -/
def Case_wall_temp (fixed_wall_3 fixed_wall_4 : Int) (energy_eqn : String) (temp3 temp4 : Double) :
    Bool × wall_map :=
  let wall_temp : wall_map := []
  let boolenergy_eq := false
  if energy_eqn = "on" then
    let boolenergy_eq := true
    let wall_temp := wall_map_insert wall_temp fixed_wall_3 temp3
    let wall_temp := wall_map_insert wall_temp fixed_wall_4 temp4
    (boolenergy_eq, wall_temp)
  else
    (boolenergy_eq, wall_temp)

/-- From `Case::Case`, lines 214-242: the list `_boundaries` after the six tests;
`wall_velocity` is the constant `LidDrivenCavity::wall_velocity`. -/
def Case_boundaries (g : GridCells) (wall_velocity UIN VIN : Double) (boolenergy_eq : Bool)
    (wall_temp : wall_map) : List Boundary :=
  let boundaries : List Boundary := []
  let boundaries :=
    if ¬ g.moving_wall_cells.isEmpty then
      boundaries ++ [Boundary.MovingWallBoundary g.moving_wall_cells wall_velocity]
    else boundaries
  let boundaries :=
    if ¬ g.inlet_cells.isEmpty then
      boundaries ++ [Boundary.InletBoundary g.inlet_cells UIN VIN]
    else boundaries
  let boundaries :=
    if ¬ g.outlet_cells.isEmpty then
      boundaries ++ [Boundary.OutletBoundary g.outlet_cells]
    else boundaries
  let boundaries :=
    if ¬ g.fixed_wall_cells.isEmpty then
      if ¬ boolenergy_eq then
        boundaries ++ [Boundary.FixedWallBoundary g.fixed_wall_cells none]
      else
        boundaries ++ [Boundary.FixedWallBoundary g.fixed_wall_cells (some wall_temp)]
    else boundaries
  let boundaries :=
    if ¬ g.adiabatic_cells.isEmpty then
      boundaries ++ [Boundary.AdiabaticBoundary g.adiabatic_cells]
    else boundaries
  let boundaries :=
    if ¬ g.free_slip_cells.isEmpty then
      boundaries ++ [Boundary.FreeSlipBoundary g.free_slip_cells]
    else boundaries
  boundaries

/-- The list `_boundaries` of a `Case` built from the given input, lines 129-136 and
214-242 of `Case::Case` together. -/
def Case_boundary_list (g : GridCells) (fixed_wall_3 fixed_wall_4 : Int) (energy_eqn : String)
    (temp3 temp4 wall_velocity UIN VIN : Double) : List Boundary :=
  Case_boundaries g wall_velocity UIN VIN
    (Case_wall_temp fixed_wall_3 fixed_wall_4 energy_eqn temp3 temp4).1
    (Case_wall_temp fixed_wall_3 fixed_wall_4 energy_eqn temp3 temp4).2

/-! ## The cell loop of the particle branch, lines 367-382 -/

/-- Modelled from the spec: `border_position` of `Enums.hpp`, which is not among the sources:
the four relative positions of a neighbour cell. -/
inductive border_position where
  | TOP
  | BOTTOM
  | LEFT
  | RIGHT
deriving DecidableEq

/-- What the cell loop reads of the grid: `type i j` is `_grid.cell(i, j).type()` and
`neighbour_type i j pos` is `_grid.cell(i, j).neighbour(pos)->type()`. -/
structure GridTypes where
  type : Int → Int → cell_type
  neighbour_type : Int → Int → border_position → cell_type

/-- The matrices of `_field` the cell loop writes, each as a function of the indices. -/
structure Fields where
  p : Int → Int → Double
  u : Int → Int → Double
  v : Int → Int → Double
  f : Int → Int → Double
  g : Int → Int → Double

/-- The assignment `m(i, j) = x` to an entry of a matrix. -/
def assign (m : Int → Int → Double) (i j : Int) (x : Double) : Int → Int → Double :=
  fun a b => if a = i ∧ b = j then x else m a b

/-- Lines 369-380: the body of the cell loop at cell `(i, j)`. -/
def clear_cell (grid : GridTypes) (field : Fields) (i j : Int) : Fields :=
  if grid.type i j ≠ cell_type.FLUID ∨ grid.type i j ≠ cell_type.SURFACE then
    let field := { field with p := assign field.p i j 0 }
    let field :=
      if grid.neighbour_type i j border_position.TOP = cell_type.EMPTY then
        { field with v := assign field.v i j 0, g := assign field.g i j 0 }
      else field
    let field :=
      if grid.neighbour_type i j border_position.RIGHT = cell_type.EMPTY then
        { field with u := assign field.u i j 0, f := assign field.f i j 0 }
      else field
    field
  else field

/-- Lines 368-381: the inner loop `for (int i = 1; i < size_x + 1; ++i)` of row `j`. -/
def clear_row (grid : GridTypes) (size_x : Int) (field : Fields) (j : Int) : Fields :=
  (List.range' 1 size_x.toNat).foldl (fun field (i : Nat) => clear_cell grid field (i : Int) j)
    field

/-- Lines 367-382: the loop `for (int j = 1; j < size_y + 1; ++j)` over the rows; the pass the
event `clear_cells` stands for. -/
def clear_cells (grid : GridTypes) (size_x size_y : Int) (field : Fields) : Fields :=
  (List.range' 1 size_y.toNat).foldl
    (fun field (j : Nat) => clear_row grid size_x field (j : Int)) field

/-! ## The file names, `Case::set_file_names` -/

/-- The string members of `Case` that `set_file_names` reads and writes, a `std::string` being
the list of its characters: `case_name` is `_case_name`, `prefix_path` is `_prefix`,
`dict_name` is `_dict_name` and `geom_name` is `_geom_name`. -/
structure FileNames where
  case_name : List Char
  prefix_path : List Char
  dict_name : List Char
  geom_name : List Char
deriving DecidableEq

/-- The locals and members the first loop of `set_file_names` works on. -/
structure ScanState where
  case_name_flag : Bool
  prefix_flag : Bool
  case_name : List Char
  prefix_path : List Char
deriving DecidableEq

/-- Lines 255-264: the body of the first loop, at the character `c = file_name[i]`. -/
def scan_char (c : Char) (st : ScanState) : ScanState :=
  let st := if c = '/' then { st with case_name_flag := false, prefix_flag := true } else st
  let st := if st.case_name_flag then { st with case_name := st.case_name ++ [c] } else st
  let st := if st.prefix_flag then { st with prefix_path := st.prefix_path ++ [c] } else st
  st

/-- Lines 254-265: the passes of the loop `for (int i = ...; i > -1; --i)` for
`i = n - 1, ..., 0`. -/
def scan_loop (file_name : List Char) : Nat → ScanState → ScanState
  | 0, st => st
  | i + 1, st => scan_loop file_name i (scan_char (file_name.getD i ' ') st)

/-- Lines 267-269: the passes of the loop that fills `temp_dir`, for `i = n - 1, ..., 0`. -/
def temp_dir_loop (file_name : List Char) : Nat → List Char → List Char
  | 0, temp_dir => temp_dir
  | i + 1, temp_dir => temp_dir_loop file_name i (temp_dir ++ [file_name.getD i ' '])

/-- The function `Case::set_file_names`, lines 249-282, up to the creation of the output
directory.  A loop `for (int i = e; i > -1; --i)` makes `(e + 1).toNat` passes, the lengths
being below `2 ^ 31` so that `e`, computed on `size_t` and stored in an `int`, is the integer
difference.  The result is `none` when `erase` throws `std::out_of_range`, the case name
being shorter than 4 characters. -/
def set_file_names (names : FileNames) (file_name : List Char) : Option FileNames :=
  let temp_dir : List Char := []
  let st : ScanState :=
    { case_name_flag := true, prefix_flag := false,
      case_name := names.case_name, prefix_path := names.prefix_path }
  let st := scan_loop file_name (((file_name.length : Int) - 1) + 1).toNat st
  let temp_dir := temp_dir_loop file_name
    (((file_name.length : Int) - (st.case_name.length : Int) - 1) + 1).toNat temp_dir
  let case_name := st.case_name.reverse
  let prefix_path := st.prefix_path.reverse
  let temp_dir := temp_dir.reverse
  if case_name.length < 4 then none
  else
    let case_name := case_name.take (case_name.length - 4)
    let dict_name := temp_dir
    let dict_name := dict_name ++ case_name
    let dict_name := dict_name ++ "_Output".toList
    let geom_name :=
      if names.geom_name ≠ "NONE".toList then prefix_path ++ names.geom_name
      else names.geom_name
    some { case_name := case_name, prefix_path := prefix_path, dict_name := dict_name,
           geom_name := geom_name }

/-! ## Scheduled outputs -/

/-- The number of scheduled output thresholds, the positive multiples of the output interval,
that the elapsed time `t` has reached: the integer part of `t / interval`. -/
def thresholds_reached : Double → Double → Nat
  | Double.fin interval, Double.fin t => ⌊t / interval⌋.toNat
  | _, _ => 0

/-- A run whose first timestep, of size 5/2, overshoots the first output threshold 1 by more
than the output interval 1; the later timesteps have size 1/2 and the end time is 3. -/
def overshoot_case : Case :=
  { sample_case with
    t_end := Double.fin 3
    output_freq := 1
    calculate_dt := fun n => if n = 0 then Double.fin (5 / 2) else Double.fin (1 / 2) }

/-! ## Theorems: the type `double` -/

/-- The order of finite doubles is that of their values. -/
theorem Double.fin_lt_fin (a b : ℚ) : Double.fin a < Double.fin b ↔ a < b := by
  show Double.lt (Double.fin a) (Double.fin b) = true ↔ a < b
  simp [Double.lt]

/-- The order of finite doubles is that of their values. -/
theorem Double.fin_le_fin (a b : ℚ) : Double.fin a ≤ Double.fin b ↔ a ≤ b := by
  show Double.le (Double.fin a) (Double.fin b) = true ↔ a ≤ b
  simp [Double.le]

/-- When the comparison `a <= b` is false, `a` or `b` is NaN or `b < a`. -/
theorem Double.not_le_cases (a b : Double) (h : ¬ a ≤ b) :
    a = Double.nan ∨ b = Double.nan ∨ b < a := by
  cases a with
  | nan => exact Or.inl rfl
  | inf s =>
    cases b with
    | nan => exact Or.inr (Or.inl rfl)
    | inf s' =>
      right; right
      change ¬ (Double.le (Double.inf s) (Double.inf s') = true) at h
      show Double.lt (Double.inf s') (Double.inf s) = true
      cases s <;> cases s' <;> simp [Double.le, Double.lt] at h ⊢
    | fin b =>
      right; right
      change ¬ (Double.le (Double.inf s) (Double.fin b) = true) at h
      show Double.lt (Double.fin b) (Double.inf s) = true
      cases s <;> simp [Double.le, Double.lt] at h ⊢
  | fin a =>
    cases b with
    | nan => exact Or.inr (Or.inl rfl)
    | inf s' =>
      right; right
      change ¬ (Double.le (Double.fin a) (Double.inf s') = true) at h
      show Double.lt (Double.inf s') (Double.fin a) = true
      cases s' <;> simp [Double.le, Double.lt] at h ⊢
    | fin b =>
      right; right
      rw [Double.fin_le_fin] at h
      rw [Double.fin_lt_fin]
      exact not_le.mp h

/-- A comparison `a < b` that holds excludes `b <= a`. -/
theorem Double.not_le_of_lt (a b : Double) (h : a < b) : ¬ b ≤ a := by
  change Double.lt a b = true at h
  show ¬ (Double.le b a = true)
  cases a with
  | nan => simp [Double.lt] at h
  | inf s =>
    cases b with
    | nan => simp [Double.lt] at h
    | inf s' => cases s <;> cases s' <;> simp [Double.le, Double.lt] at h ⊢
    | fin b => cases s <;> simp [Double.le, Double.lt] at h ⊢
  | fin a =>
    cases b with
    | nan => simp [Double.lt] at h
    | inf s' => cases s' <;> simp [Double.le, Double.lt] at h ⊢
    | fin b =>
      simp only [Double.lt, Double.le, decide_eq_true_eq] at h ⊢
      exact not_le.mpr h

/-- The magnitude of a rounded number is a multiple of `2 ^ -1074`. -/
theorem Double.round_magnitude_grid (n d : Nat) :
    ∃ z : Int, Double.round_magnitude n d = (z : ℚ) / 2 ^ 1074 := by
  have key : ∀ (m : Nat) (e : Int), -1074 ≤ e →
      ∃ z : Int, mkRat ((m * 2 ^ e.toNat : Nat) : Int) (2 ^ (-e).toNat)
        = (z : ℚ) / 2 ^ 1074 := by
    intro m e he
    refine ⟨((m * 2 ^ e.toNat : Nat) : Int) * 2 ^ (1074 - (-e).toNat), ?_⟩
    rw [Rat.mkRat_eq_div]
    have h2 : (-e).toNat ≤ 1074 := by omega
    have h3 : (2 : ℚ) ^ 1074 = 2 ^ (-e).toNat * 2 ^ (1074 - (-e).toNat) := by
      rw [← pow_add]; congr 1; omega
    rw [h3]
    push_cast
    field_simp
    ring
  exact key _ _ (le_max_right _ (-1074))

/-- A finite result of rounding is a multiple of `2 ^ -1074`, the least positive double. -/
theorem Double.round_grid (q v : ℚ) (h : Double.round q = Double.fin v) :
    ∃ z : Int, v = (z : ℚ) / 2 ^ 1074 := by
  unfold Double.round at h
  by_cases h0 : q = 0
  · rw [if_pos h0] at h
    injection h with h
    exact ⟨0, by rw [← h]; simp⟩
  · rw [if_neg h0] at h
    obtain ⟨z, hz⟩ := Double.round_magnitude_grid q.num.natAbs q.den
    simp only [hz] at h
    split_ifs at h with h1 h2
    · injection h with h
      exact ⟨-z, by rw [← h]; push_cast; ring⟩
    · injection h with h
      exact ⟨z, by rw [← h]⟩

/-- A finite sum of doubles is a multiple of `2 ^ -1074`. -/
theorem Double.add_grid (a b : Double) (v : ℚ) (h : a + b = Double.fin v) :
    ∃ z : Int, v = (z : ℚ) / 2 ^ 1074 := by
  change Double.add a b = Double.fin v at h
  cases a with
  | nan => simp [Double.add] at h
  | inf s =>
    cases b with
    | nan => simp [Double.add] at h
    | inf s' =>
      simp only [Double.add] at h
      split_ifs at h
    | fin b => simp [Double.add] at h
  | fin a =>
    cases b with
    | nan => simp [Double.add] at h
    | inf s' => simp [Double.add] at h
    | fin b =>
      simp only [Double.add] at h
      exact Double.round_grid _ _ h

/-- The magnitude of a rounded number is not negative. -/
theorem Double.round_magnitude_nonneg (n d : Nat) : 0 ≤ Double.round_magnitude n d := by
  unfold Double.round_magnitude
  simp only []
  rw [Rat.mkRat_eq_div]
  exact div_nonneg (by exact_mod_cast Nat.zero_le _) (by exact_mod_cast Nat.zero_le _)

/-- The result of rounding, for a magnitude `w` that is not negative and a bound `B` that is
positive: a finite result is below the bound. -/
theorem Double.round_bound_aux (w B v : ℚ) (neg : Prop) [Decidable neg] (hw : 0 ≤ w)
    (hB : 0 < B)
    (h : (if B ≤ w then Double.inf (decide neg) else Double.fin (if neg then -w else w))
      = Double.fin v) :
    v < B := by
  by_cases h1 : B ≤ w
  · rw [if_pos h1] at h
    cases h
  · rw [if_neg h1] at h
    have h := Double.fin.inj h
    by_cases h2 : neg
    · rw [if_pos h2] at h
      rw [← h]
      exact lt_of_le_of_lt (neg_nonpos.mpr hw) hB
    · rw [if_neg h2] at h
      rw [← h]
      exact not_le.mp h1

/-- A finite result of rounding is below `2 ^ 1024`. -/
theorem Double.round_bound (q v : ℚ) (h : Double.round q = Double.fin v) :
    v < 2 ^ 1024 := by
  unfold Double.round at h
  by_cases h0 : q = 0
  · rw [if_pos h0] at h
    have h := Double.fin.inj h
    rw [← h]
    exact pow_pos two_pos 1024
  · rw [if_neg h0] at h
    exact Double.round_bound_aux _ _ v (q < 0)
      (Double.round_magnitude_nonneg q.num.natAbs q.den) (pow_pos two_pos 1024) h

/-- A finite sum of doubles is below `2 ^ 1024`. -/
theorem Double.add_bound (a b : Double) (v : ℚ) (h : a + b = Double.fin v) :
    v < 2 ^ 1024 := by
  change Double.add a b = Double.fin v at h
  cases a with
  | nan => simp [Double.add] at h
  | inf s =>
    cases b with
    | nan => simp [Double.add] at h
    | inf s' =>
      simp only [Double.add] at h
      split_ifs at h
    | fin b => simp [Double.add] at h
  | fin a =>
    cases b with
    | nan => simp [Double.add] at h
    | inf s' => simp [Double.add] at h
    | fin b =>
      simp only [Double.add] at h
      exact Double.round_bound _ _ h

/-- Nothing is greater than a sum with `+infinity`, and nothing is greater than NaN. -/
theorem Double.not_inf_lt_add (b : Double) : ¬ Double.inf false < Double.inf false + b := by
  show ¬ (Double.lt (Double.inf false) (Double.add (Double.inf false) b) = true)
  cases b with
  | nan => simp [Double.add, Double.lt]
  | inf s => cases s <;> simp [Double.add, Double.lt]
  | fin b => simp [Double.add, Double.lt]
/-! ## Theorems: the domain decomposition -/

/-- Among the messages sent to the ranks `s, s + 1, ..., s + len - 1` in turn, the first one
addressed to `r` with tag `r` is the one built for `r`. -/
theorem find_sent (g : Nat → List Int) (r : Nat) :
    ∀ (len s : Nat), s ≤ r → r < s + len →
    ((List.range' s len).map fun (k : Nat) =>
        ({ dest := (k : Int), tag := (k : Int), data := g k } : Message)).find?
      (fun m => decide (m.dest = (r : Int)) && decide (m.tag = (r : Int)))
      = some { dest := (r : Int), tag := (r : Int), data := g r } := by
  intro len
  induction len with
  | zero => intro s h1 h2; omega
  | succ n ih =>
    intro s h1 h2
    rw [List.range'_succ, List.map_cons, List.find?_cons]
    by_cases h : s = r
    · subst h; simp
    · have hne : ¬ ((s : Int) = (r : Int)) := by exact_mod_cast h
      simp only [hne, decide_False, Bool.and_self]
      exact ih (s + 1) (by omega) (by omega)

/-- Every rank `1 ≤ r < iproc * jproc` receives the vector `build_domain` built for it. -/
theorem MPI_Recv_build_domain (procNull imax jmax iproc jproc r : Int)
    (h1 : 1 ≤ r) (h2 : r < iproc * jproc) :
    MPI_Recv (build_domain procNull imax jmax iproc jproc) r
      = some (build_domain_data procNull imax jmax iproc jproc r) := by
  obtain ⟨k, rfl⟩ := Int.eq_ofNat_of_zero_le (by omega : 0 ≤ r)
  unfold MPI_Recv build_domain
  rw [find_sent (fun (k : Nat) => build_domain_data procNull imax jmax iproc jproc (k : Int)) k
    _ 1 (by omega) (by omega)]
  rfl

/-- Column `r % iproc` and row `r / iproc` of a rank in the process grid; on a rank the
truncating operations of C++ agree with `%` and `/`. -/
theorem rank_split (iproc jproc r : Int) (hi : 1 ≤ iproc) (h0 : 0 ≤ r)
    (h2 : r < iproc * jproc) :
    r.tmod iproc = r % iproc ∧ r.tdiv iproc = r / iproc ∧
    (r / iproc).tmod jproc = r / iproc ∧
    0 ≤ r % iproc ∧ r % iproc < iproc ∧ 0 ≤ r / iproc ∧ r / iproc < jproc ∧
    iproc * (r / iproc) + r % iproc = r := by
  have hc0 : 0 ≤ r % iproc := Int.emod_nonneg _ (by omega)
  have hc1 : r % iproc < iproc := Int.emod_lt_of_pos _ (by omega)
  have hw0 : 0 ≤ r / iproc := Int.ediv_nonneg h0 (by omega)
  have hdecomp : iproc * (r / iproc) + r % iproc = r := Int.ediv_add_emod r iproc
  have hw1 : r / iproc < jproc := by
    by_contra hcon
    have : iproc * jproc ≤ iproc * (r / iproc) :=
      Int.mul_le_mul_of_nonneg_left (by omega) (by omega)
    omega
  refine ⟨Int.tmod_eq_emod h0 (by omega), Int.tdiv_eq_ediv h0 (by omega), ?_,
    hc0, hc1, hw0, hw1, hdecomp⟩
  rw [Int.tmod_eq_emod hw0 (by omega)]
  exact Int.emod_eq_of_lt hw0 hw1

/-- The fields of the descriptor of rank `r`, in terms of its column and row. -/
theorem rank_domain_spec (procNull : Int) (xlength ylength : Double)
    (imax jmax iproc jproc r : Int) (hi : 1 ≤ iproc)
    (h0 : 0 ≤ r) (h2 : r < iproc * jproc) :
    ∃ d, rank_domain procNull xlength ylength imax jmax iproc jproc r = some d ∧
      d.imin = (r % iproc) * imax.tdiv iproc ∧
      d.jmin = (r / iproc) * jmax.tdiv jproc ∧
      d.size_x = (if r % iproc = iproc - 1 then imax - (r % iproc) * imax.tdiv iproc
        else imax.tdiv iproc) ∧
      d.size_y = (if r / iproc = jproc - 1 then jmax - (r / iproc) * jmax.tdiv jproc
        else jmax.tdiv jproc) ∧
      d.imax = d.imin + d.size_x + 2 ∧
      d.jmax = d.jmin + d.size_y + 2 ∧
      d.east = (if r % iproc + 1 < iproc then r + 1 else procNull) ∧
      d.north = (if r + iproc < iproc * jproc then r + iproc else procNull) ∧
      d.west = (if 1 ≤ r % iproc then r - 1 else procNull) ∧
      d.south = (if iproc ≤ r then r - iproc else procNull) := by
  obtain ⟨e1, e2, e3, hc0, hc1, hw0, hw1, hdec⟩ := rank_split iproc jproc r hi h0 h2
  by_cases hr : r = 0
  · subst hr
    refine ⟨Case_coordinator procNull xlength ylength imax jmax iproc jproc,
      by simp [rank_domain], ?_⟩
    have k2 : ¬ iproc ≤ 0 := by omega
    by_cases k1 : 1 < iproc <;> by_cases k3 : iproc ≤ iproc * jproc - 1 <;>
      simp [Case_coordinator, Case_domain_common, Domain.fresh, Domain.east, Domain.north,
        Domain.west, Domain.south, k1, k2, k3]
    all_goals
      refine ⟨?_, ?_, ?_⟩
      · split_ifs with h
        · have h1 : iproc = 1 := by omega
          rw [h1, Int.tdiv_one]
        · rfl
      · split_ifs with h
        · have h1 : jproc = 1 := by omega
          rw [h1, Int.tdiv_one]
        · rfl
      · split_ifs <;> first | rfl | omega
  · rw [rank_domain, if_neg hr, MPI_Recv_build_domain _ _ _ _ _ _ (by omega) h2]
    refine ⟨_, rfl, ?_⟩
    simp only [Case_worker, Case_domain_common, Domain.fresh, Domain.east, Domain.north,
      Domain.west, Domain.south, build_domain_data, build_domain_imin, build_domain_jmin,
      build_domain_imax, build_domain_jmax, build_domain_size_x, build_domain_size_y,
      build_domain_neighbor_e, build_domain_neighbor_w, build_domain_neighbor_n,
      build_domain_neighbor_s, e1, e2, e3]
    simp
    refine ⟨?_, ?_, ?_, ?_⟩ <;> split_ifs <;> ring

/-- Sign and size of the truncated quotient. -/
theorem tdiv_facts (m n : Int) (hn : 1 ≤ n) :
    n * m.tdiv n + m.tmod n = m ∧
    (0 ≤ m → 0 ≤ m.tdiv n ∧ n * m.tdiv n ≤ m) ∧
    (m < 0 → m.tdiv n ≤ 0 ∧ m ≤ n * m.tdiv n) := by
  have hdec := Int.tdiv_add_tmod m n
  refine ⟨hdec, ?_, ?_⟩
  · intro hm
    have e1 := Int.tdiv_eq_ediv hm (by omega : 0 ≤ n)
    have e2 := Int.tmod_eq_emod hm (by omega : 0 ≤ n)
    have := Int.emod_nonneg m (by omega : n ≠ 0)
    have := Int.ediv_nonneg hm (by omega : 0 ≤ n)
    constructor <;> omega
  · intro hm
    have e1 := Int.tdiv_eq_ediv (by omega : 0 ≤ -m) (by omega : 0 ≤ n)
    have e2 := Int.tmod_eq_emod (by omega : 0 ≤ -m) (by omega : 0 ≤ n)
    have e4 : (-m).tdiv n = -(m.tdiv n) := Int.neg_tdiv m n
    have e3 : n * (-(m.tdiv n)) + (-m).tmod n = -m := by
      rw [← e4]; exact Int.tdiv_add_tmod (-m) n
    have e5 : n * (-(m.tdiv n)) = -(n * m.tdiv n) := by ring
    have := Int.emod_nonneg (-m) (by omega : n ≠ 0)
    have := Int.ediv_nonneg (by omega : 0 ≤ -m) (by omega : 0 ≤ n)
    constructor <;> omega

/-- One direction of the grid, where the tile of column `c` is
`[c * q, c * q + if c = n - 1 then m - c * q else q)`: every cell lies in some tile. -/
theorem cover1 (n q m i : Int) (hq : 0 ≤ q) (hi : 0 ≤ i) (him : i < m) (hn : 1 ≤ n) :
    ∃ c, 0 ≤ c ∧ c < n ∧ c * q ≤ i ∧
      i < c * q + (if c = n - 1 then m - c * q else q) := by
  by_cases h : i < (n - 1) * q
  · have hq0 : 0 < q := by
      rcases hq.lt_or_eq with h1 | h1
      · exact h1
      · rw [← h1] at h; simp at h; omega
    have hlt : i / q < n - 1 := Int.ediv_lt_of_lt_mul hq0 h
    have h1 := Int.ediv_add_emod i q
    have h2 := Int.emod_nonneg i (by omega : q ≠ 0)
    have h3 := Int.emod_lt_of_pos i hq0
    have h4 := Int.ediv_nonneg hi hq
    refine ⟨i / q, h4, by omega, ?_, ?_⟩
    · rw [mul_comm]; omega
    · rw [if_neg (by omega), mul_comm]; omega
  · refine ⟨n - 1, by omega, by omega, by omega, ?_⟩
    rw [if_pos rfl]; omega

/-- One direction of the grid: the tiles of two different columns share no cell. -/
theorem unique1 (n q m i c c' : Int) (hq : 0 ≤ q) (hc' : c' < n)
    (h1 : i < c * q + (if c = n - 1 then m - c * q else q)) (h2 : c' * q ≤ i)
    (hlt : c < c') : False := by
  rw [if_neg (by omega)] at h1
  have : (c + 1) * q ≤ c' * q := Int.mul_le_mul_of_nonneg_right (by omega) hq
  have e : (c + 1) * q = c * q + q := by ring
  omega

/-- One direction of the grid: a tile holds cells of the grid only. -/
theorem inside1 (n q m i c : Int)
    (H : (0 ≤ m → 0 ≤ q ∧ n * q ≤ m) ∧ (m < 0 → q ≤ 0 ∧ m ≤ n * q))
    (hc0 : 0 ≤ c) (hc : c < n) (h1 : c * q ≤ i)
    (h2 : i < c * q + (if c = n - 1 then m - c * q else q)) : 0 ≤ i ∧ i < m := by
  rcases lt_or_le m 0 with hm | hm
  · obtain ⟨hq, hmq⟩ := H.2 hm
    exfalso
    split_ifs at h2 with hcn
    · subst hcn
      have e : n * q = (n - 1) * q + q := by ring
      omega
    · omega
  · obtain ⟨hq, hmq⟩ := H.1 hm
    have hcq : 0 ≤ c * q := mul_nonneg hc0 hq
    split_ifs at h2 with hcn
    · omega
    · have : (c + 1) * q ≤ n * q := Int.mul_le_mul_of_nonneg_right (by omega) hq
      have e : (c + 1) * q = c * q + q := by ring
      omega

/-- Column and row of the rank `iproc * w + c`. -/
theorem rank_of_coords (iproc c w : Int) (hc0 : 0 ≤ c) (hc : c < iproc) :
    (iproc * w + c) % iproc = c ∧ (iproc * w + c) / iproc = w := by
  constructor
  · rw [add_comm, Int.add_mul_emod_self_left]
    exact Int.emod_eq_of_lt hc0 hc
  · rw [add_comm, Int.add_mul_ediv_left _ _ (by omega : iproc ≠ 0),
      Int.ediv_eq_zero_of_lt hc0 hc]
    omega

/-- The column of the rank to the east. -/
theorem emod_succ (iproc A : Int) (hi : 1 ≤ iproc) (h : A % iproc + 1 < iproc) :
    (A + 1) % iproc = A % iproc + 1 := by
  have hc0 : 0 ≤ A % iproc := Int.emod_nonneg _ (by omega)
  have hdec : iproc * (A / iproc) + A % iproc = A := Int.ediv_add_emod A iproc
  have := (rank_of_coords iproc (A % iproc + 1) (A / iproc) (by omega) h).1
  have e : iproc * (A / iproc) + (A % iproc + 1) = A + 1 := by omega
  rwa [e] at this

/-- The tests of `build_domain` for a north and a south neighbour, in terms of the row. -/
theorem row_facts (iproc jproc r : Int) (hi : 1 ≤ iproc) (h0 : 0 ≤ r)
    (h2 : r < iproc * jproc) :
    (r + iproc < iproc * jproc ↔ r / iproc ≠ jproc - 1) ∧
    (iproc ≤ r ↔ r / iproc ≠ 0) := by
  obtain ⟨-, -, -, hc0, hc1, hw0, hw1, hdec⟩ := rank_split iproc jproc r hi h0 h2
  constructor
  · constructor
    · intro h hw
      rw [hw] at hdec
      have e : iproc * (jproc - 1) = iproc * jproc - iproc := by ring
      omega
    · intro hw
      have : iproc * (r / iproc + 2) ≤ iproc * jproc :=
        Int.mul_le_mul_of_nonneg_left (by omega) (by omega)
      have e : iproc * (r / iproc + 2) = iproc * (r / iproc) + 2 * iproc := by ring
      omega
  · constructor
    · intro h hw
      rw [hw] at hdec
      omega
    · intro hw
      have : iproc * 1 ≤ iproc * (r / iproc) :=
        Int.mul_le_mul_of_nonneg_left (by omega) (by omega)
      omega

/-- C1 (domain-partitioning coverage).  For `iproc ≥ 1`, `jproc ≥ 1` and any global grid
`imax x jmax`: every rank `0 ≤ r < iproc * jproc` has a descriptor (the coordinator's own
from `Case::Case`, the others the one sent by `build_domain`); every global cell `(i, j)`
with `0 ≤ i < imax`, `0 ≤ j < jmax` is an interior cell of the tile
`[imin, imin + size_x) x [jmin, jmin + size_y)` of exactly one rank; and a tile holds global
cells only, so that two tiles overlap nowhere. -/
theorem partition_covers_each_cell_exactly_once (procNull : Int) (xlength ylength : Double)
    (imax jmax iproc jproc : Int) (hi : 1 ≤ iproc) (hj : 1 ≤ jproc) :
    (∀ r : Int, 0 ≤ r → r < iproc * jproc →
      ∃ d, rank_domain procNull xlength ylength imax jmax iproc jproc r = some d) ∧
    (∀ i j : Int, 0 ≤ i → i < imax → 0 ≤ j → j < jmax →
      ∃! r : Int, 0 ≤ r ∧ r < iproc * jproc ∧
        ∃ d, rank_domain procNull xlength ylength imax jmax iproc jproc r = some d ∧
          d.interior i j) ∧
    (∀ (r : Int) (d : Domain) (i j : Int), 0 ≤ r → r < iproc * jproc →
      rank_domain procNull xlength ylength imax jmax iproc jproc r = some d →
      d.interior i j → 0 ≤ i ∧ i < imax ∧ 0 ≤ j ∧ j < jmax) := by
  obtain ⟨-, fx1, fx2⟩ := tdiv_facts imax iproc hi
  obtain ⟨-, fy1, fy2⟩ := tdiv_facts jmax jproc hj
  refine ⟨?_, ?_, ?_⟩
  · intro r h0 h2
    obtain ⟨d, hd, -⟩ := rank_domain_spec procNull xlength ylength imax jmax iproc jproc r
      hi h0 h2
    exact ⟨d, hd⟩
  · intro i j hi0 hi1 hj0 hj1
    obtain ⟨hqx, -⟩ := fx1 (by omega)
    obtain ⟨hqy, -⟩ := fy1 (by omega)
    obtain ⟨c, hc0, hc1, hc2, hc3⟩ := cover1 iproc (imax.tdiv iproc) imax i hqx hi0 hi1 hi
    obtain ⟨w, hw0, hw1, hw2, hw3⟩ := cover1 jproc (jmax.tdiv jproc) jmax j hqy hj0 hj1 hj
    obtain ⟨ec, ew⟩ := rank_of_coords iproc c w hc0 hc1
    have hr0 : 0 ≤ iproc * w + c := by
      have := mul_nonneg (by omega : (0 : Int) ≤ iproc) hw0
      omega
    have hr1 : iproc * w + c < iproc * jproc := by
      have : iproc * (w + 1) ≤ iproc * jproc :=
        Int.mul_le_mul_of_nonneg_left (by omega) (by omega)
      have e : iproc * (w + 1) = iproc * w + iproc := by ring
      omega
    refine ⟨iproc * w + c, ⟨hr0, hr1, ?_⟩, ?_⟩
    · obtain ⟨d, hd, d1, d2, d3, d4, -⟩ := rank_domain_spec procNull xlength ylength imax jmax
        iproc jproc (iproc * w + c) hi hr0 hr1
      refine ⟨d, hd, ?_⟩
      rw [ec] at d1 d3
      rw [ew] at d2 d4
      unfold Domain.interior
      rw [d1, d2, d3, d4]
      exact ⟨hc2, hc3, hw2, hw3⟩
    · rintro r' ⟨h0, h2, d', hd', hin⟩
      obtain ⟨d, hd, d1, d2, d3, d4, -⟩ := rank_domain_spec procNull xlength ylength imax jmax
        iproc jproc r' hi h0 h2
      obtain ⟨-, -, -, sc0, sc1, sw0, sw1, sdec⟩ := rank_split iproc jproc r' hi h0 h2
      rw [hd] at hd'
      cases hd'
      unfold Domain.interior at hin
      rw [d1, d2, d3, d4] at hin
      obtain ⟨a1, a2, a3, a4⟩ := hin
      have ecc : r' % iproc = c := by
        rcases lt_trichotomy (r' % iproc) c with h | h | h
        · exact (unique1 iproc _ imax i _ _ hqx hc1 a2 hc2 h).elim
        · exact h
        · exact (unique1 iproc _ imax i _ _ hqx sc1 hc3 a1 h).elim
      have eww : r' / iproc = w := by
        rcases lt_trichotomy (r' / iproc) w with h | h | h
        · exact (unique1 jproc _ jmax j _ _ hqy hw1 a4 hw2 h).elim
        · exact h
        · exact (unique1 jproc _ jmax j _ _ hqy sw1 hw3 a3 h).elim
      rw [← sdec, ecc, eww]
  · intro r d i j h0 h2 hd hin
    obtain ⟨d', hd', d1, d2, d3, d4, -⟩ := rank_domain_spec procNull xlength ylength imax jmax
      iproc jproc r hi h0 h2
    obtain ⟨-, -, -, sc0, sc1, sw0, sw1, -⟩ := rank_split iproc jproc r hi h0 h2
    rw [hd] at hd'
    cases hd'
    unfold Domain.interior at hin
    rw [d1, d2, d3, d4] at hin
    obtain ⟨a1, a2, a3, a4⟩ := hin
    have hx := inside1 iproc (imax.tdiv iproc) imax i (r % iproc) ⟨fx1, fx2⟩ sc0 sc1 a1 a2
    have hy := inside1 jproc (jmax.tdiv jproc) jmax j (r / iproc) ⟨fy1, fy2⟩ sw0 sw1 a3 a4
    exact ⟨hx.1, hx.2, hy.1, hy.2⟩

/-- C2 (neighbour ranks are mutually consistent).  For `iproc ≥ 1` and ranks `A`, `B` of the
process grid, with a sentinel `MPI_PROC_NULL` that is no rank (negative): `A` declares `B`
as its east neighbour iff `B` declares `A` as its west neighbour, and `A` declares `B` as its
north neighbour iff `B` declares `A` as its south neighbour.  (`jproc ≥ 1` follows from a
rank existing.) -/
theorem neighbors_mutually_consistent (procNull : Int) (xlength ylength : Double)
    (imax jmax iproc jproc : Int) (hi : 1 ≤ iproc) (hnull : procNull < 0)
    (A B : Int) (hA0 : 0 ≤ A) (hA1 : A < iproc * jproc) (hB0 : 0 ≤ B)
    (hB1 : B < iproc * jproc) :
    ∃ dA dB, rank_domain procNull xlength ylength imax jmax iproc jproc A = some dA ∧
      rank_domain procNull xlength ylength imax jmax iproc jproc B = some dB ∧
      (dA.east = B ↔ dB.west = A) ∧ (dA.north = B ↔ dB.south = A) := by
  obtain ⟨dA, hdA, -, -, -, -, -, -, eA, nA, -, -⟩ :=
    rank_domain_spec procNull xlength ylength imax jmax iproc jproc A hi hA0 hA1
  obtain ⟨dB, hdB, -, -, -, -, -, -, -, -, wB, sB⟩ :=
    rank_domain_spec procNull xlength ylength imax jmax iproc jproc B hi hB0 hB1
  refine ⟨dA, dB, hdA, hdB, ?_, ?_⟩
  · rw [eA, wB]
    constructor
    · intro h
      split_ifs at h with hc
      · have := emod_succ iproc A hi hc
        rw [h] at this
        have hc0 : 0 ≤ A % iproc := Int.emod_nonneg _ (by omega)
        rw [if_pos (by omega)]
        omega
      · omega
    · intro h
      split_ifs at h with hc
      · have hlt : B % iproc < iproc := Int.emod_lt_of_pos _ (by omega)
        have hBA : B = A + 1 := by omega
        by_cases hA : A % iproc + 1 < iproc
        · rw [if_pos hA]; omega
        · exfalso
          have hc0 : 0 ≤ A % iproc := Int.emod_nonneg _ (by omega)
          have hlast : A % iproc = iproc - 1 := by
            have := Int.emod_lt_of_pos A (by omega : 0 < iproc)
            omega
          have hdec : iproc * (A / iproc) + A % iproc = A := Int.ediv_add_emod A iproc
          have e : B = iproc * (A / iproc + 1) + 0 := by
            have : iproc * (A / iproc + 1) = iproc * (A / iproc) + iproc := by ring
            omega
          have := (rank_of_coords iproc 0 (A / iproc + 1) (by omega) (by omega)).1
          rw [← e] at this
          omega
      · omega
  · rw [nA, sB]
    constructor
    · intro h
      split_ifs at h with hc
      · rw [if_pos (by omega)]; omega
      · omega
    · intro h
      split_ifs at h with hc
      · rw [if_pos (by omega)]; omega
      · omega

/-- C6 (tile sizes).  For `iproc ≥ 1` and a rank `r` of the process grid: `size_x` is
`imax / iproc`, plus `imax % iproc` exactly in the final process column, `size_y` is
`jmax / jproc`, plus `jmax % jproc` exactly in the final process row (C++ integer division
and remainder), and the bounds satisfy `imax - imin = size_x + 2`,
`jmax - jmin = size_y + 2`.  (`jproc ≥ 1` follows from a rank existing.) -/
theorem tile_sizes_absorb_remainder (procNull : Int) (xlength ylength : Double)
    (imax jmax iproc jproc : Int) (hi : 1 ≤ iproc)
    (r : Int) (h0 : 0 ≤ r) (h2 : r < iproc * jproc) :
    ∃ d, rank_domain procNull xlength ylength imax jmax iproc jproc r = some d ∧
      d.size_x = (if r % iproc = iproc - 1 then imax.tdiv iproc + imax.tmod iproc
        else imax.tdiv iproc) ∧
      d.size_y = (if r / iproc = jproc - 1 then jmax.tdiv jproc + jmax.tmod jproc
        else jmax.tdiv jproc) ∧
      d.imax - d.imin = d.size_x + 2 ∧ d.jmax - d.jmin = d.size_y + 2 := by
  obtain ⟨d, hd, d1, d2, d3, d4, d5, d6, -⟩ :=
    rank_domain_spec procNull xlength ylength imax jmax iproc jproc r hi h0 h2
  have fx := Int.tdiv_add_tmod imax iproc
  have fy := Int.tdiv_add_tmod jmax jproc
  refine ⟨d, hd, ?_, ?_, by omega, by omega⟩
  · rw [d3]
    split_ifs with h
    · rw [h]
      have e : (iproc - 1) * imax.tdiv iproc = iproc * imax.tdiv iproc - imax.tdiv iproc := by
        ring
      omega
    · rfl
  · rw [d4]
    split_ifs with h
    · rw [h]
      have e : (jproc - 1) * jmax.tdiv jproc = jproc * jmax.tdiv jproc - jmax.tdiv jproc := by
        ring
      omega
    · rfl

/-- C7 (neighbour sentinel).  For `iproc ≥ 1`, a rank `r` of the process grid and a sentinel
`MPI_PROC_NULL` that is no rank (negative): the descriptor holds the sentinel to the east /
north / west / south exactly when the tile is in the last column / last row / first column /
first row, and otherwise declares `r + 1` / `r + iproc` / `r - 1` / `r - iproc`, a rank of
the process grid other than `r`.  (`jproc ≥ 1` follows from a rank existing.) -/
theorem neighbor_sentinel_on_global_boundary (procNull : Int) (xlength ylength : Double)
    (imax jmax iproc jproc : Int) (hi : 1 ≤ iproc) (hnull : procNull < 0)
    (r : Int) (h0 : 0 ≤ r) (h2 : r < iproc * jproc) :
    ∃ d, rank_domain procNull xlength ylength imax jmax iproc jproc r = some d ∧
      (r % iproc = iproc - 1 → d.east = procNull) ∧
      (r % iproc ≠ iproc - 1 →
        d.east = r + 1 ∧ 0 ≤ d.east ∧ d.east < iproc * jproc ∧ d.east ≠ r) ∧
      (r / iproc = jproc - 1 → d.north = procNull) ∧
      (r / iproc ≠ jproc - 1 →
        d.north = r + iproc ∧ 0 ≤ d.north ∧ d.north < iproc * jproc ∧ d.north ≠ r) ∧
      (r % iproc = 0 → d.west = procNull) ∧
      (r % iproc ≠ 0 →
        d.west = r - 1 ∧ 0 ≤ d.west ∧ d.west < iproc * jproc ∧ d.west ≠ r) ∧
      (r / iproc = 0 → d.south = procNull) ∧
      (r / iproc ≠ 0 →
        d.south = r - iproc ∧ 0 ≤ d.south ∧ d.south < iproc * jproc ∧ d.south ≠ r) ∧
      (d.east ≠ procNull ↔ r % iproc ≠ iproc - 1) ∧
      (d.north ≠ procNull ↔ r / iproc ≠ jproc - 1) ∧
      (d.west ≠ procNull ↔ r % iproc ≠ 0) ∧
      (d.south ≠ procNull ↔ r / iproc ≠ 0) := by
  obtain ⟨d, hd, -, -, -, -, -, -, eE, eN, eW, eS⟩ :=
    rank_domain_spec procNull xlength ylength imax jmax iproc jproc r hi h0 h2
  obtain ⟨-, -, -, hc0, hc1, hw0, hw1, hdec⟩ := rank_split iproc jproc r hi h0 h2
  obtain ⟨rn, rs⟩ := row_facts iproc jproc r hi h0 h2
  refine ⟨d, hd, ?_⟩
  rw [eE, eN, eW, eS]
  have hrow : iproc * (r / iproc) + iproc ≤ iproc * jproc := by
    have : iproc * (r / iproc + 1) ≤ iproc * jproc :=
      Int.mul_le_mul_of_nonneg_left (by omega) (by omega)
    have e : iproc * (r / iproc + 1) = iproc * (r / iproc) + iproc := by ring
    omega
  have hrow0 : 0 ≤ iproc * (r / iproc) := mul_nonneg (by omega) hw0
  clear eE eN eW eS hd
  refine ⟨?_, ?_, ?_, ?_, ?_, ?_, ?_, ?_, ?_, ?_, ?_, ?_⟩ <;> split_ifs <;> omega

/-! ## Theorems: the inner loop and the main loop of `simulate` -/

/-- The inner loop, started in any state `s`: it makes some number `m` of sweeps, each
followed by no message, then prints the message of non-convergence on rank 0 if the residual
is still above the tolerance; `iter`, `res` and `total_iter` are those after `m` sweeps, the
other variables are untouched, and every sweep was made with the residual above the
tolerance and `iter` below `max_iter`. -/
theorem pressure_loop_spec (c : Case) (s : SimState) :
    ∃ m : Nat,
      (pressure_loop c s).2 = (List.replicate m (sweep c s).2).flatten ++
        (if c.tolerance < (pressure_loop c s).1.res then
          (if c.rank = 0 then
            [Event.not_converged (pressure_loop c s).1.iter (pressure_loop c s).1.res]
          else [])
        else []) ∧
      (pressure_loop c s).1.iter = s.iter + m ∧
      (pressure_loop c s).1.res
        = (if m = 0 then s.res else c.solve s.timestep (s.iter + m - 1)) ∧
      (pressure_loop c s).1.total_iter = s.total_iter + m ∧
      (pressure_loop c s).1.t = s.t ∧
      (pressure_loop c s).1.dt = s.dt ∧
      (pressure_loop c s).1.timestep = s.timestep ∧
      (pressure_loop c s).1.output_freq = s.output_freq ∧
      (pressure_loop c s).1.particle = s.particle ∧
      (c.tolerance < (pressure_loop c s).1.res → c.max_iter ≤ (pressure_loop c s).1.iter) ∧
      (∀ j : Nat, j < m → s.iter + j < c.max_iter ∧
        c.tolerance < (if j = 0 then s.res else c.solve s.timestep (s.iter + j - 1))) := by
  induction s using pressure_loop.induct c with
  | case1 s h1 h2 =>
    refine ⟨0, ?_⟩
    rw [pressure_loop, if_pos h1, if_pos h2]
    simp [h1, h2]
  | case3 s h1 =>
    refine ⟨0, ?_⟩
    rw [pressure_loop, if_neg h1]
    simp [h1]
  | case2 s h1 h2 ih =>
    obtain ⟨m, e1, e2, e3, e4, e5, e6, e7, e8, e9, e10, e11⟩ := ih
    refine ⟨m + 1, ?_⟩
    rw [pressure_loop, if_pos h1, if_neg h2]
    simp only []
    have hs1 : (sweep c s).1.iter = s.iter + 1 := rfl
    have hs2 : (sweep c s).1.res = c.solve s.timestep s.iter := rfl
    have hs3 : (sweep c s).1.timestep = s.timestep := rfl
    have hs4 : (sweep c (sweep c s).1).2 = (sweep c s).2 := rfl
    rw [hs1] at e2 e3 e11
    rw [hs2] at e3 e11
    rw [hs3] at e3 e11
    rw [hs4] at e1
    refine ⟨?_, ?_, ?_, ?_, e5, e6, e7, e8, e9, e10, ?_⟩
    · rw [e1, List.replicate_succ, List.flatten_cons, List.append_assoc]
    · rw [e2]; push_cast; ring
    · rw [if_neg (Nat.succ_ne_zero m), e3]
      split_ifs with hm
      · subst hm; simp
      · congr 1; push_cast; ring
    · rw [e4]
      show s.total_iter + 1 + (m : Int) = s.total_iter + ((m + 1 : Nat) : Int)
      push_cast; ring
    · intro j hj
      rcases Nat.eq_zero_or_pos j with h0 | h0
      · subst h0
        simp only [Int.Nat.cast_ofNat_Int, add_zero, if_true]
        exact ⟨by omega, h1⟩
      · obtain ⟨a, b⟩ := e11 (j - 1) (by omega)
        have ej : (((j - 1 : Nat) : Int)) = (j : Int) - 1 := by omega
        rw [ej] at a b
        refine ⟨by omega, ?_⟩
        rw [if_neg (by omega)]
        split_ifs at b with hj1
        · have : j = 1 := by omega
          subst this
          simpa using b
        · have e : s.iter + 1 + ((j : Int) - 1) - 1 = s.iter + (j : Int) - 1 := by ring
          rwa [e] at b

/-- The clock, the output threshold and the trace of one pass of the main loop. -/
theorem simulate_step_spec (c : Case) (s : SimState) :
    (simulate_step c s).1.t = s.t + c.calculate_dt s.timestep ∧
    (simulate_step c s).1.timestep = s.timestep + 1 ∧
    (simulate_step c s).1.output_freq
      = (if s.output_freq ≤ s.t + c.calculate_dt s.timestep then s.output_freq + c.output_freq
         else s.output_freq) ∧
    (simulate_step c s).2 =
      [Event.calculate_dt] ++
      (if 0 < s.particle.length then
        [Event.reset_fluid_cells, Event.clear_cells, Event.surface_update_cells,
          Event.surface_apply_black]
      else []) ++
      (if c.energy_eq then
        [Event.calculate_temperature, Event.communicate Matrix.t_matrix]
      else []) ++
      [Event.calculate_fluxes, Event.communicate Matrix.f_matrix,
        Event.communicate Matrix.g_matrix, Event.calculate_rs] ++
      (pressure_loop c
        { s with dt := c.calculate_dt s.timestep, iter := 0, res := DBL_MAX }).2 ++
      [Event.calculate_velocities] ++
      (if 0 < s.particle.length then
        [Event.surface_apply_black, Event.surface_apply_pressure, Event.advance_particles]
      else []) ++
      apply_boundaries c ++
      [Event.communicate Matrix.u_matrix, Event.communicate Matrix.v_matrix] ++
      (if c.rank = 0 ∧ (s.timestep + 1).tmod 5 = 0 then [Event.progress (s.timestep + 1)]
      else []) ++
      (if s.output_freq ≤ s.t + c.calculate_dt s.timestep then
        [Event.output_vtk (s.timestep + 1) c.rank]
      else []) := by
  obtain ⟨m, -, -, -, -, e5, e6, e7, e8, e9, -, -⟩ := pressure_loop_spec c
    { s with dt := c.calculate_dt s.timestep, iter := 0, res := DBL_MAX }
  simp only [] at e5 e6 e7 e8 e9
  unfold simulate_step
  simp only [e5, e6, e7, e8, e9]
  by_cases hp : 0 < s.particle.length <;>
    by_cases ho : s.output_freq ≤ s.t + c.calculate_dt s.timestep <;>
    simp [hp, ho, e5, e6, e7, e8, e9]

/-- One sweep calls the solver once. -/
theorem count_solve_sweep (c : Case) (s : SimState) :
    (sweep c s).2.count Event.solve = 1 := by
  have h : (apply_pressure_boundaries c).count Event.solve = 0 := by
    rw [List.count_eq_zero]
    unfold apply_pressure_boundaries
    simp
  simp [sweep, List.count_append, h]

/-- The solver calls of `m` sweeps. -/
theorem count_solve_flatten (l : List Event) (hl : l.count Event.solve = 1) (m : Nat) :
    (List.replicate m l).flatten.count Event.solve = m := by
  induction m with
  | zero => simp
  | succ n ih =>
    rw [List.replicate_succ, List.flatten_cons, List.count_append, hl, ih]
    omega

/-- The number of solver calls of the inner loop. -/
theorem count_solve_pressure_loop (c : Case) (s : SimState) (m : Nat)
    (h : (pressure_loop c s).2 = (List.replicate m (sweep c s).2).flatten ++
        (if c.tolerance < (pressure_loop c s).1.res then
          (if c.rank = 0 then
            [Event.not_converged (pressure_loop c s).1.iter (pressure_loop c s).1.res]
          else [])
        else [])) :
    (pressure_loop c s).2.count Event.solve = m := by
  rw [h, List.count_append, count_solve_flatten _ (count_solve_sweep c s)]
  split_ifs <;> simp

/-- C3, counterexample.  With `max_iter = 3` and the tolerance 1/8: when the solver returns
NaN the inner loop makes one sweep only, although 1 is below `max_iter` and the residual
returned by that sweep is not at most the tolerance; and with the tolerance
`std::numeric_limits<double>::max()`, which is the residual before the first sweep, the loop
makes no sweep, although 0 is below `max_iter` and +infinity is not at most the tolerance.
In both runs the number of sweeps is not a number `k` with `k ≥ max_iter` or the residual of
sweep `k` at most the tolerance. -/
theorem inner_loop_sweeps_counterexample :
    (pressure_loop nan_residual_case
        { (simulate_init nan_residual_case).1 with iter := 0, res := DBL_MAX }).2.count
          Event.solve = 1 ∧
      ¬ (nan_residual_case.max_iter ≤ 1 ∨
        residual_from_infinity nan_residual_case 0 1 ≤ nan_residual_case.tolerance) ∧
    (pressure_loop largest_tolerance_case
        { (simulate_init largest_tolerance_case).1 with iter := 0, res := DBL_MAX }).2.count
          Event.solve = 0 ∧
      ¬ (largest_tolerance_case.max_iter ≤ 0 ∨
        residual_from_infinity largest_tolerance_case 0 0 ≤ largest_tolerance_case.tolerance) ∧
    Double.representable nan_residual_case.tolerance ∧
    Double.representable largest_tolerance_case.tolerance := by
  refine ⟨?_, by decide!, ?_, by decide!, by decide!, by decide!⟩
  · rw [pressure_loop, if_pos (by decide!), if_neg (by decide!)]
    simp only []
    rw [pressure_loop, if_neg (by decide!)]
    decide
  · rw [pressure_loop, if_neg (by decide!)]
    decide

/-- C3, amended (pressure-Poisson inner loop).  With `max_iter ≥ 0`, for every tolerance and
every sequence of residuals: the loop, which is a total function, makes exactly `k` solver
sweeps and leaves `iter = k`, where `k` is the least number with `k ≥ max_iter` or with the
comparison `residual > tolerance` false for the residual after `k` sweeps, which is
`std::numeric_limits<double>::max()` for `k = 0` and what sweep `k` returned otherwise (the
comparison is false also for a residual that is NaN); in particular `k ≤ max_iter`. -/
theorem pressure_loop_makes_least_number_of_sweeps (c : Case) (s : SimState)
    (hmax : 0 ≤ c.max_iter) :
    ∃ k : Nat,
      (pressure_loop c { s with iter := 0, res := DBL_MAX }).2.count Event.solve = k ∧
      (pressure_loop c { s with iter := 0, res := DBL_MAX }).1.iter = k ∧
      (c.max_iter ≤ k ∨ ¬ residual c s.timestep k > c.tolerance) ∧
      (∀ j : Nat, j < k → ¬ (c.max_iter ≤ j ∨ ¬ residual c s.timestep j > c.tolerance)) ∧
      (k : Int) ≤ c.max_iter := by
  obtain ⟨m, e1, e2, e3, -, -, -, -, -, -, e10, e11⟩ :=
    pressure_loop_spec c { s with iter := 0, res := DBL_MAX }
  have hcount := count_solve_pressure_loop c _ m e1
  simp only [zero_add] at e2 e3 e11
  have hres : (pressure_loop c { s with iter := 0, res := DBL_MAX }).1.res
      = residual c s.timestep m := e3
  refine ⟨m, hcount, e2, ?_, ?_, ?_⟩
  · by_cases h : c.tolerance < (pressure_loop c { s with iter := 0, res := DBL_MAX }).1.res
    · left
      rw [← e2]
      exact e10 h
    · right
      rw [← hres]
      exact h
  · intro j hj hP
    obtain ⟨a, b⟩ := e11 j hj
    rcases hP with h | h
    · omega
    · exact h b
  · rcases Nat.eq_zero_or_pos m with h0 | h0
    · subst h0; simpa using hmax
    · have := (e11 (m - 1) (by omega)).1
      omega

/-- The elapsed time grows by the timestep size, and `timestep` counts the passes. -/
theorem state_after_succ (c : Case) (n : Nat) :
    (state_after c (n + 1)).t = (state_after c n).t + c.calculate_dt n ∧
    (state_after c n).timestep = n := by
  induction n with
  | zero =>
    obtain ⟨h1, -, -, -⟩ := simulate_step_spec c (state_after c 0)
    have h0 : (state_after c 0).timestep = 0 := rfl
    constructor
    · show (simulate_step c (state_after c 0)).1.t = _
      rw [h1, h0]; rfl
    · exact h0
  | succ n ih =>
    obtain ⟨h1, -, -, -⟩ := simulate_step_spec c (state_after c (n + 1))
    obtain ⟨-, h2, -, -⟩ := simulate_step_spec c (state_after c n)
    have hts : (state_after c (n + 1)).timestep = ((n + 1 : Nat) : Int) := by
      show (simulate_step c (state_after c n)).1.timestep = _
      rw [h2, ih.2]; push_cast; rfl
    constructor
    · show (simulate_step c (state_after c (n + 1))).1.t = _
      rw [h1, hts]
    · exact hts

/-- The main loop makes `k` further passes when the test `t <= _t_end` fails first after
these, given enough fuel. -/
theorem simulate_loop_run (c : Case) :
    ∀ (k n fuel : Nat),
      (∀ j, n ≤ j → j < n + k → (state_after c j).t ≤ c.t_end) →
      ¬ (state_after c (n + k)).t ≤ c.t_end → k < fuel →
      simulate_loop c fuel (state_after c n)
        = some (state_after c (n + k), ((List.range' n k).map (step_trace c)).flatten) := by
  intro k
  induction k with
  | zero =>
    intro n fuel _ hend hfuel
    obtain ⟨f, rfl⟩ : ∃ f, fuel = f + 1 := ⟨fuel - 1, by omega⟩
    rw [Nat.add_zero] at hend
    rw [simulate_loop, if_neg hend]
    simp
  | succ k ih =>
    intro n fuel hle hend hfuel
    obtain ⟨f, rfl⟩ : ∃ f, fuel = f + 1 := ⟨fuel - 1, by omega⟩
    rw [simulate_loop, if_pos (hle n (le_refl n) (by omega))]
    have hstep : (simulate_step c (state_after c n)).1 = state_after c (n + 1) := rfl
    have e : n + (k + 1) = n + 1 + k := by omega
    rw [hstep, ih (n + 1) f (fun j h1 h2 => hle j (by omega) (by omega))
      (by rw [← e]; exact hend) (by omega)]
    simp only [Option.map_some', List.range'_succ, List.map_cons, List.flatten_cons, e]
    rfl

/-- The main loop is still running after `fuel` passes when the test `t <= _t_end` has not
failed by then. -/
theorem simulate_loop_out_of_fuel (c : Case) :
    ∀ (fuel n : Nat), (∀ j, n ≤ j → j < n + fuel → (state_after c j).t ≤ c.t_end) →
      simulate_loop c fuel (state_after c n) = none := by
  intro fuel
  induction fuel with
  | zero => intro n _; rfl
  | succ f ih =>
    intro n hle
    rw [simulate_loop, if_pos (hle n (le_refl n) (by omega))]
    have hstep : (simulate_step c (state_after c n)).1 = state_after c (n + 1) := rfl
    rw [hstep, ih (n + 1) (fun j h1 h2 => hle j (by omega) (by omega))]
    rfl

/-- The run of `simulate` whose test `t <= _t_end` fails first after `N` passes. -/
theorem simulate_run (c : Case) (N : Nat)
    (hle : ∀ n, n < N → (state_after c n).t ≤ c.t_end)
    (hend : ¬ (state_after c N).t ≤ c.t_end) (fuel : Nat) (hfuel : N < fuel) :
    simulate c fuel = some (state_after c N,
      (simulate_init c).2 ++ ((List.range N).map (step_trace c)).flatten) := by
  have h := simulate_loop_run c N 0 fuel (fun j _ h2 => hle j (by omega))
    (by rw [zero_add]; exact hend) hfuel
  unfold simulate
  have h0 : (simulate_init c).1 = state_after c 0 := rfl
  rw [h0, h, zero_add]
  simp [List.range_eq_range']

/-- A run of `simulate` is out of fuel when the test `t <= _t_end` has not failed by then. -/
theorem simulate_out_of_fuel (c : Case) (fuel : Nat)
    (hle : ∀ n, n < fuel → (state_after c n).t ≤ c.t_end) :
    simulate c fuel = none := by
  have h := simulate_loop_out_of_fuel c fuel 0 (fun j _ h2 => hle j (by omega))
  unfold simulate
  have h0 : (simulate_init c).1 = state_after c 0 := rfl
  rw [h0, h]
  rfl

/-- The order of two multiples of a positive unit is that of their factors. -/
theorem grid_lt (z z' : Int) (P : ℚ) (hP : 0 < P) (h : (z : ℚ) / P < (z' : ℚ) / P) :
    z < z' := by
  have h3 : (z : ℚ) < (z' : ℚ) := by
    rwa [div_lt_div_iff_of_pos_right hP] at h
  exact_mod_cast h3

/-- A multiple of the unit `1 / P` that is below `B` has a factor below `B * P`. -/
theorem grid_bound (z : Int) (P B : ℚ) (hP : 0 < P) (h : (z : ℚ) / P < B) :
    (z : ℚ) < B * P := by
  rwa [div_lt_iff₀ hP] at h

/-- While every pass made increases the elapsed time, the elapsed time at the start of pass
`n` is finite, a multiple of `2 ^ -1074` that is at least `n` times `2 ^ -1074`, and below
`2 ^ 1024`. -/
theorem clock_on_grid (c : Case)
    (hinc : ∀ n : Nat, (∀ m, m ≤ n → (state_after c m).t ≤ c.t_end) →
      (state_after c n).t < (state_after c n).t + c.calculate_dt n) :
    ∀ n : Nat, (∀ m, m ≤ n → (state_after c m).t ≤ c.t_end) →
      ∃ z : Int, (state_after c n).t = Double.fin ((z : ℚ) / 2 ^ 1074) ∧ (n : Int) ≤ z ∧
        (z : ℚ) / 2 ^ 1074 < 2 ^ 1024 := by
  intro n
  induction n with
  | zero =>
    intro _
    refine ⟨0, by simp [state_after, simulate_init]; rfl, le_refl _, ?_⟩
    rw [Int.cast_zero, zero_div]
    exact pow_pos two_pos 1024
  | succ n ih =>
    intro hle
    have hle' : ∀ m, m ≤ n → (state_after c m).t ≤ c.t_end := fun m hm => hle m (by omega)
    obtain ⟨z, hz, hnz, -⟩ := ih hle'
    have hlt := hinc n hle'
    rw [← (state_after_succ c n).1] at hlt
    have hsum := (state_after_succ c n).1
    have hnext := hinc (n + 1) hle
    rw [hz] at hlt hsum
    cases hv : (state_after c (n + 1)).t with
    | nan =>
      rw [hv] at hlt
      change Double.lt _ _ = true at hlt
      simp [Double.lt] at hlt
    | inf s =>
      rw [hv] at hlt hnext
      change Double.lt _ _ = true at hlt
      simp only [Double.lt, Bool.not_eq_true'] at hlt
      rw [hlt] at hnext
      exact absurd hnext (Double.not_inf_lt_add _)
    | fin v =>
      rw [hv] at hlt hsum
      obtain ⟨z', hz'⟩ := Double.add_grid _ _ v hsum.symm
      have hb := Double.add_bound _ _ v hsum.symm
      rw [Double.fin_lt_fin, hz'] at hlt
      rw [hz'] at hb
      refine ⟨z', by rw [hz'], ?_, hb⟩
      have h4 : z < z' := grid_lt z z' _ (pow_pos two_pos 1074) hlt
      push_cast
      omega

/-- While every pass made increases the elapsed time, the test `t <= _t_end` fails after
finitely many passes: the finite doubles that are not negative are multiples of `2 ^ -1074`
below `2 ^ 1024`, so there are finitely many. -/
theorem clock_passes_end_time (c : Case)
    (hinc : ∀ n : Nat, (∀ m, m ≤ n → (state_after c m).t ≤ c.t_end) →
      (state_after c n).t < (state_after c n).t + c.calculate_dt n) :
    ∃ n : Nat, ¬ (state_after c n).t ≤ c.t_end := by
  by_contra hcon
  push_neg at hcon
  obtain ⟨n, hn⟩ := exists_nat_ge ((2 : ℚ) ^ 1024 * 2 ^ 1074)
  obtain ⟨z, -, hnz, hb⟩ := clock_on_grid c hinc n (fun m _ => hcon m)
  have h1 := grid_bound z _ _ (pow_pos two_pos 1074) hb
  have h3 : (n : ℚ) ≤ (z : ℚ) := by exact_mod_cast hnz
  exact absurd (lt_of_le_of_lt (hn.trans h3) h1) (lt_irrefl _)
/-- C4, counterexample.  In the run with end time 2 whose timestep sizes are 1 and then
always `2 ^ -54`, every timestep size is at least `delta = 2 ^ -54 > 0`, yet the sum
`1 + 2 ^ -54` rounds to 1: the elapsed time is 1 at the start of every pass but the first, it
does not increase from pass 1 to pass 2, and the loop never terminates.  And in the run whose
timestep size is NaN the loop ends after one pass with an elapsed time, NaN, that is not
greater than the end time. -/
theorem stalled_clock_counterexample :
    ((0 : ℚ) < 1 / 2 ^ 54 ∧
      (∀ n : Int, Double.fin (1 / 2 ^ 54) ≤ stalled_case.calculate_dt n) ∧
      (∀ n : Int, Double.representable (stalled_case.calculate_dt n)) ∧
      Double.representable stalled_case.t_end ∧
      (∀ n : Nat, 1 ≤ n → (state_after stalled_case n).t = Double.fin 1) ∧
      ¬ (state_after stalled_case 1).t < (state_after stalled_case 2).t ∧
      (∀ fuel : Nat, simulate stalled_case fuel = none)) ∧
    ((∃ tr, simulate nan_dt_case 2 = some (state_after nan_dt_case 1, tr)) ∧
      (state_after nan_dt_case 1).t = Double.nan ∧
      ¬ nan_dt_case.t_end < (state_after nan_dt_case 1).t) := by
  have hdt : ∀ n : Int, stalled_case.calculate_dt n
      = if n = 0 then Double.fin 1 else Double.fin (1 / 2 ^ 54) := fun _ => rfl
  have h0 : (state_after stalled_case 0).t = Double.fin 0 := rfl
  have h1 : ∀ n : Nat, 1 ≤ n → (state_after stalled_case n).t = Double.fin 1 := by
    intro n hn
    induction n with
    | zero => omega
    | succ k ih =>
      rw [(state_after_succ stalled_case k).1, hdt]
      rcases Nat.eq_zero_or_pos k with hk | hk
      · subst hk
        rw [h0]
        decide!
      · rw [ih hk, if_neg (by omega)]
        decide!
  have hend : stalled_case.t_end = Double.fin 2 := rfl
  have hle : ∀ n : Nat, (state_after stalled_case n).t ≤ stalled_case.t_end := by
    intro n
    rcases Nat.eq_zero_or_pos n with hn | hn
    · subst hn
      rw [h0, hend]
      decide!
    · rw [h1 n hn, hend]
      decide!
  have n0 : (state_after nan_dt_case 0).t = Double.fin 0 := rfl
  have n1 : (state_after nan_dt_case 1).t = Double.nan := by
    rw [(state_after_succ nan_dt_case 0).1, n0]
    rfl
  have nend : nan_dt_case.t_end = Double.fin 1 := rfl
  have nrun := simulate_run nan_dt_case 1
    (by
      intro n hn
      have : n = 0 := by omega
      subst this
      rw [n0, nend]
      decide!)
    (by rw [n1, nend]; decide!) 2 (by omega)
  refine ⟨⟨by positivity, ?_, ?_, by decide!, h1, ?_, ?_⟩, ⟨_, nrun⟩, n1, ?_⟩
  · intro n
    rw [hdt]
    split_ifs <;> decide!
  · intro n
    rw [hdt]
    split_ifs <;> decide!
  · rw [h1 1 (le_refl _), h1 2 (by omega)]
    decide!
  · intro fuel
    exact simulate_out_of_fuel stalled_case fuel (fun n _ => hle n)
  · rw [n1, nend]
    decide!

/-- C4, amended (time-advancement driver).  A pass of the main loop is made exactly when the
comparison `t <= _t_end` of doubles holds at its start: when it fails first after `N` passes,
`simulate` returns, for every fuel above `N` and for no smaller fuel, the state after `N`
passes and the trace of the start followed by those of the passes `0 .. N - 1`, and the final
elapsed time is greater than the end time unless one of the two is NaN; while the comparison
has not failed the run goes on.  Every pass adds the timestep size to the elapsed time in
`double` arithmetic and, as long as the counter is below `2 ^ 31 - 1`, the largest `int`,
adds one to `timestep`, which counts the passes.  When every pass made increases the elapsed
time, `t + dt > t` in `double` arithmetic, the loop terminates: there is such a number `N`,
the final elapsed time is greater than the end time unless the end time is NaN, and the
elapsed time increases in every pass made. -/
theorem main_loop_terminates_past_end_time (c : Case) :
    (∀ N : Nat, (∀ n, n < N → (state_after c n).t ≤ c.t_end) →
      ¬ (state_after c N).t ≤ c.t_end →
      (∀ fuel, N < fuel → simulate c fuel = some (state_after c N,
        (simulate_init c).2 ++ ((List.range N).map (step_trace c)).flatten)) ∧
      (∀ fuel, fuel ≤ N → simulate c fuel = none) ∧
      ((state_after c N).t = Double.nan ∨ c.t_end = Double.nan ∨
        c.t_end < (state_after c N).t)) ∧
    (∀ fuel : Nat, (∀ n, n < fuel → (state_after c n).t ≤ c.t_end) →
      simulate c fuel = none) ∧
    (∀ n : Nat, (state_after c (n + 1)).t = (state_after c n).t + c.calculate_dt n ∧
      ((n : Int) < 2 ^ 31 - 1 → (state_after c n).timestep = n ∧
        (state_after c (n + 1)).timestep = (state_after c n).timestep + 1)) ∧
    ((∀ n : Nat, (∀ m, m ≤ n → (state_after c m).t ≤ c.t_end) →
        (state_after c n).t < (state_after c n).t + c.calculate_dt n) →
      ∃ N : Nat,
        (∀ fuel, N < fuel → simulate c fuel = some (state_after c N,
          (simulate_init c).2 ++ ((List.range N).map (step_trace c)).flatten)) ∧
        (∀ fuel, fuel ≤ N → simulate c fuel = none) ∧
        (∀ n, n < N → (state_after c n).t ≤ c.t_end) ∧
        ¬ (state_after c N).t ≤ c.t_end ∧
        (c.t_end = Double.nan ∨ c.t_end < (state_after c N).t) ∧
        (∀ n, n < N → (state_after c n).t < (state_after c (n + 1)).t)) := by
  refine ⟨?_, ?_, ?_, ?_⟩
  · intro N hle hend
    exact ⟨fun fuel hfuel => simulate_run c N hle hend fuel hfuel,
      fun fuel hfuel => simulate_out_of_fuel c fuel (fun n hn => hle n (by omega)),
      Double.not_le_cases _ _ hend⟩
  · intro fuel hle
    exact simulate_out_of_fuel c fuel hle
  · intro n
    refine ⟨(state_after_succ c n).1, fun _ => ⟨(state_after_succ c n).2, ?_⟩⟩
    rw [(state_after_succ c n).2, (state_after_succ c (n + 1)).2]
    push_cast
    rfl
  · intro hinc
    have hex := clock_passes_end_time c hinc
    classical
    have hmin : ∀ n, n < Nat.find hex → (state_after c n).t ≤ c.t_end :=
      fun n hn => not_not.mp (Nat.find_min hex hn)
    have hstep : ∀ n, n < Nat.find hex →
        (state_after c n).t < (state_after c (n + 1)).t := by
      intro n hn
      rw [(state_after_succ c n).1]
      exact hinc n (fun m hm => hmin m (by omega))
    refine ⟨Nat.find hex, fun fuel hfuel => simulate_run c _ hmin (Nat.find_spec hex) fuel hfuel,
      fun fuel hfuel => simulate_out_of_fuel c fuel (fun n hn => hmin n (by omega)),
      hmin, Nat.find_spec hex, ?_, hstep⟩
    rcases Double.not_le_cases _ _ (Nat.find_spec hex) with h | h | h
    · exfalso
      rcases Nat.eq_zero_or_pos (Nat.find hex) with h0 | h0
      · rw [h0] at h
        have e0 : (state_after c 0).t = Double.fin 0 := rfl
        rw [e0] at h
        cases h
      · have := hstep (Nat.find hex - 1) (by omega)
        have e : Nat.find hex - 1 + 1 = Nat.find hex := by omega
        rw [e, h] at this
        change Double.lt _ _ = true at this
        cases ht : (state_after c (Nat.find hex - 1)).t <;> rw [ht] at this <;>
          simp [Double.lt] at this
    · exact Or.inl h
    · exact Or.inr h
/-- The events of the inner loop. -/
theorem pressure_loop_events (c : Case) (s : SimState) :
    ∀ e ∈ (pressure_loop c s).2, e = Event.communicate Matrix.p_matrix ∨
      (∃ i, e = Event.boundary_apply_pressure i) ∨ e = Event.solve ∨
      ∃ i q, e = Event.not_converged i q := by
  obtain ⟨m, e1, -⟩ := pressure_loop_spec c s
  intro e he
  rw [e1, List.mem_append] at he
  rcases he with he | he
  · rw [List.mem_flatten] at he
    obtain ⟨l, hl, hel⟩ := he
    rw [List.eq_of_mem_replicate hl] at hel
    simp only [sweep, apply_pressure_boundaries, List.mem_append, List.mem_singleton,
      List.mem_map, List.mem_range] at hel
    rcases hel with (h | ⟨i, -, h⟩) | h
    · exact Or.inl h
    · exact Or.inr (Or.inl ⟨i, h.symm⟩)
    · exact Or.inr (Or.inr (Or.inl h))
  · right; right; right
    split_ifs at he
    · exact ⟨_, _, List.mem_singleton.mp he⟩
    · simp at he
    · simp at he

/-- Applying the boundary conditions emits no snapshot. -/
theorem countP_output_apply_boundaries (c : Case) :
    (apply_boundaries c).countP Event.is_output = 0 := by
  rw [List.countP_eq_zero]
  intro e he
  simp only [apply_boundaries, List.mem_map, List.mem_range] at he
  obtain ⟨i, -, rfl⟩ := he
  simp [Event.is_output]

/-- The inner loop emits no snapshot. -/
theorem countP_output_pressure_loop (c : Case) (s : SimState) :
    (pressure_loop c s).2.countP Event.is_output = 0 := by
  rw [List.countP_eq_zero]
  intro e he
  rcases pressure_loop_events c s e he with h | ⟨i, h⟩ | h | ⟨i, q, h⟩ <;>
    simp [h, Event.is_output]

/-- One pass of the main loop emits one snapshot or none. -/
theorem countP_output_step (c : Case) (s : SimState) :
    (simulate_step c s).2.countP Event.is_output
      = if s.output_freq ≤ s.t + c.calculate_dt s.timestep then 1 else 0 := by
  rw [(simulate_step_spec c s).2.2.2]
  simp only [List.countP_append, countP_output_apply_boundaries, countP_output_pressure_loop]
  split_ifs <;> simp [Event.is_output]

/-- One pass of the main loop: whether it emits a snapshot, and the next threshold. -/
theorem step_output_spec (c : Case) (n : Nat) :
    ((step_trace c n).countP Event.is_output
      = if (state_after c n).output_freq ≤ (state_after c (n + 1)).t then 1 else 0) ∧
    ((state_after c (n + 1)).output_freq
      = if (state_after c n).output_freq ≤ (state_after c (n + 1)).t then
          (state_after c n).output_freq + c.output_freq
        else (state_after c n).output_freq) := by
  obtain ⟨h1, -, h3, -⟩ := simulate_step_spec c (state_after c n)
  have ht : (state_after c (n + 1)).t
      = (state_after c n).t + c.calculate_dt (state_after c n).timestep := h1
  rw [ht]
  exact ⟨countP_output_step c (state_after c n), h3⟩

/-- The elapsed time and the output threshold in the five passes of the run with the output
interval 0.1 and timesteps of size 1. -/
theorem tenth_case_run :
    (∀ n : Nat, n ≤ 5 → (state_after tenth_case n).t = Double.fin n) ∧
    (∀ n : Nat, n ≤ 5 →
      (state_after tenth_case n).output_freq = threshold_after tenth_case.output_freq n ∧
      snapshots_emitted tenth_case n = n) := by
  have hdt : ∀ n : Int, tenth_case.calculate_dt n = Double.fin 1 := fun _ => rfl
  have ht : ∀ n : Nat, n ≤ 5 → (state_after tenth_case n).t = Double.fin n := by
    intro n
    induction n with
    | zero => intro _; rfl
    | succ k ih =>
      intro hk
      rw [(state_after_succ tenth_case k).1, ih (by omega), hdt]
      have hk4 : k ≤ 4 := by omega
      clear ih hk
      interval_cases k <;> decide!
  refine ⟨ht, ?_⟩
  intro n
  induction n with
  | zero => intro _; exact ⟨rfl, rfl⟩
  | succ k ih =>
    intro hk
    obtain ⟨h1, h2⟩ := ih (by omega)
    have hle : (state_after tenth_case k).output_freq ≤ (state_after tenth_case (k + 1)).t := by
      rw [h1, ht (k + 1) hk]
      have hk4 : k ≤ 4 := by omega
      clear ih hk h1 h2
      interval_cases k <;> decide!
    rw [(step_output_spec tenth_case k).2, snapshots_emitted, (step_output_spec tenth_case k).1,
      if_pos hle, if_pos hle, h1, h2]
    exact ⟨rfl, rfl⟩

/-- C5, counterexample.  In the run with the output interval 0.1 (the double nearest to
1/10), timesteps of size 1 and the end time 4, the loop makes five passes and emits a
snapshot in each; after these five emissions the threshold is the double
`5404319552844595 / 2 ^ 53`, which is neither 6 times the interval as a number nor the double
product of 6 and the interval, `5404319552844596 / 2 ^ 53`. -/
theorem threshold_multiple_counterexample :
    (∃ tr, simulate tenth_case 6 = some (state_after tenth_case 5, tr)) ∧
    snapshots_emitted tenth_case 5 = 5 ∧
    tenth_case.output_freq = Double.fin (3602879701896397 / 2 ^ 55) ∧
    (state_after tenth_case 5).output_freq = Double.fin (5404319552844595 / 2 ^ 53) ∧
    (5404319552844595 / 2 ^ 53 : ℚ) ≠ (5 + 1) * (3602879701896397 / 2 ^ 55) ∧
    Double.of_int (5 + 1) * tenth_case.output_freq = Double.fin (5404319552844596 / 2 ^ 53) ∧
    (state_after tenth_case 5).output_freq ≠ Double.of_int (5 + 1) * tenth_case.output_freq := by
  obtain ⟨ht, hthr⟩ := tenth_case_run
  have hend : tenth_case.t_end = Double.fin 4 := rfl
  have hF : tenth_case.output_freq = Double.fin (3602879701896397 / 2 ^ 55) := by decide!
  have h5 : (state_after tenth_case 5).output_freq
      = Double.fin (5404319552844595 / 2 ^ 53) := by
    rw [(hthr 5 (le_refl _)).1]
    decide!
  have hprod : Double.of_int (5 + 1) * tenth_case.output_freq
      = Double.fin (5404319552844596 / 2 ^ 53) := by decide!
  have hrun := simulate_run tenth_case 5
    (by
      intro n hn
      rw [ht n (by omega), hend]
      interval_cases n <;> decide!)
    (by rw [ht 5 (le_refl _), hend]; decide!) 6 (by omega)
  refine ⟨⟨_, hrun⟩, (hthr 5 (le_refl _)).2, hF, h5, by norm_num, hprod, ?_⟩
  rw [h5, hprod]
  decide!

/-- C5, amended (snapshot cadence).  In pass `n` of the main loop a snapshot is emitted iff
the elapsed time after the pass has reached the output threshold at its start, the
comparison `t >= _output_freq` of doubles, and then only one; an emission replaces the
threshold by its `double` sum with the configured interval `output_freq` (the constant
`output_counter`) and without emission the threshold stays; so the threshold at the start of
pass `n` is the configured interval to which the interval has been added `k` times, one
after the other in `double` arithmetic, with `k` the number of snapshots emitted in the
passes before. -/
theorem snapshot_cadence (c : Case) (n : Nat) :
    ((step_trace c n).countP Event.is_output
      = if (state_after c n).output_freq ≤ (state_after c (n + 1)).t then 1 else 0) ∧
    ((state_after c (n + 1)).output_freq
      = if (state_after c n).output_freq ≤ (state_after c (n + 1)).t then
          (state_after c n).output_freq + c.output_freq
        else (state_after c n).output_freq) ∧
    (state_after c n).output_freq = threshold_after c.output_freq (snapshots_emitted c n) := by
  refine ⟨(step_output_spec c n).1, (step_output_spec c n).2, ?_⟩
  induction n with
  | zero => rfl
  | succ k ih =>
    rw [(step_output_spec c k).2, snapshots_emitted, (step_output_spec c k).1, ih]
    split_ifs
    · rfl
    · rfl

/-- The inner loop, restricted to the events of the ordering contract, is a sequence of
sweeps: pressure halo exchange, `apply_pressure` of every boundary, solver. -/
theorem filter_ordered_pressure_loop (c : Case) (s : SimState) :
    ∃ m : Nat, (pressure_loop c s).2.count Event.solve = m ∧
      (pressure_loop c s).2.filter Event.ordered
        = (List.replicate m ([Event.communicate Matrix.p_matrix] ++
            (List.range c.boundaries).map Event.boundary_apply_pressure ++
            [Event.solve])).flatten := by
  obtain ⟨m, e1, -⟩ := pressure_loop_spec c s
  refine ⟨m, count_solve_pressure_loop c s m e1, ?_⟩
  rw [e1, List.filter_append]
  have h1 : ((List.replicate m (sweep c s).2).flatten).filter Event.ordered
      = (List.replicate m (sweep c s).2).flatten := by
    rw [List.filter_eq_self]
    intro e he
    rw [List.mem_flatten] at he
    obtain ⟨l, hl, hel⟩ := he
    rw [List.eq_of_mem_replicate hl] at hel
    simp only [sweep, apply_pressure_boundaries, List.mem_append, List.mem_singleton,
      List.mem_map, List.mem_range] at hel
    rcases hel with (h | ⟨i, -, h⟩) | h
    · rw [h]; rfl
    · rw [← h]; rfl
    · rw [h]; rfl
  rw [h1]
  have h2 : (sweep c s).2 = [Event.communicate Matrix.p_matrix] ++
      (List.range c.boundaries).map Event.boundary_apply_pressure ++ [Event.solve] := rfl
  rw [h2]
  split_ifs <;> simp [Event.ordered]

/-- Applying the boundary conditions is `apply` of every boundary in turn. -/
theorem filter_ordered_apply_boundaries (c : Case) :
    (apply_boundaries c).filter Event.ordered
      = (List.range c.boundaries).map Event.boundary_apply := by
  unfold apply_boundaries
  rw [List.filter_eq_self]
  intro e he
  simp only [List.mem_map, List.mem_range] at he
  obtain ⟨i, -, rfl⟩ := he
  rfl

/-- The trace of the main loop is the traces of its passes, one after the other. -/
theorem simulate_loop_trace (c : Case) :
    ∀ (fuel n : Nat) (r : SimState × List Event),
      simulate_loop c fuel (state_after c n) = some r →
      ∃ k : Nat, r.1 = state_after c (n + k) ∧
        r.2 = ((List.range' n k).map (step_trace c)).flatten := by
  intro fuel
  induction fuel with
  | zero => intro n r h; simp [simulate_loop] at h
  | succ f ih =>
    intro n r h
    rw [simulate_loop] at h
    split_ifs at h with hle
    · have hstep : (simulate_step c (state_after c n)).1 = state_after c (n + 1) := rfl
      rw [hstep] at h
      cases hrec : simulate_loop c f (state_after c (n + 1)) with
      | none => rw [hrec] at h; simp at h
      | some r' =>
        rw [hrec] at h
        obtain ⟨k, hk1, hk2⟩ := ih (n + 1) r' hrec
        simp only [Option.map_some', Option.some.injEq] at h
        refine ⟨k + 1, ?_, ?_⟩
        · rw [← h, hk1]
          congr 1
          omega
        · rw [← h, hk2]
          simp only [List.range'_succ, List.map_cons, List.flatten_cons]
          rfl
    · simp only [Option.some.injEq] at h
      exact ⟨0, by rw [← h]; rfl, by rw [← h]; rfl⟩

/-- C8 (boundary ordering contract).  Restricted to the events of the contract, the start of
`simulate` is `apply` of every boundary object once, in order; the trace of a run is that of
the start followed by those of the passes of the main loop; and every pass is, for the number
`m` of its solver sweeps: `m` times (pressure halo exchange, `apply_pressure` of every
boundary object once, solver sweep), then the velocity correction, then `apply` of every
boundary object once, then the halo exchanges of `u` and `v`. -/
theorem boundary_ordering_contract (c : Case) :
    (simulate_init c).2.filter Event.ordered
      = (List.range c.boundaries).map Event.boundary_apply ∧
    (∀ (fuel : Nat) (r : SimState × List Event), simulate c fuel = some r →
      ∃ N : Nat, r.2 = (simulate_init c).2 ++ ((List.range N).map (step_trace c)).flatten) ∧
    (∀ s : SimState, ∃ m : Nat,
      (simulate_step c s).2.count Event.solve = m ∧
      (simulate_step c s).2.filter Event.ordered
        = (List.replicate m ([Event.communicate Matrix.p_matrix] ++
            (List.range c.boundaries).map Event.boundary_apply_pressure ++
            [Event.solve])).flatten ++
          [Event.calculate_velocities] ++
          (List.range c.boundaries).map Event.boundary_apply ++
          [Event.communicate Matrix.u_matrix, Event.communicate Matrix.v_matrix]) := by
  refine ⟨?_, ?_, ?_⟩
  · simp only [simulate_init, List.filter_append, filter_ordered_apply_boundaries]
    simp [Event.ordered]
  · intro fuel r h
    unfold simulate at h
    cases hrec : simulate_loop c fuel (simulate_init c).1 with
    | none => rw [hrec] at h; simp at h
    | some r' =>
      rw [hrec] at h
      have h0 : (simulate_init c).1 = state_after c 0 := rfl
      rw [h0] at hrec
      obtain ⟨k, -, hk2⟩ := simulate_loop_trace c fuel 0 r' hrec
      simp only [Option.map_some', Option.some.injEq] at h
      refine ⟨k, ?_⟩
      rw [← h, hk2, List.range_eq_range']
  · intro s
    obtain ⟨m, hm1, hm2⟩ := filter_ordered_pressure_loop c
      { s with dt := c.calculate_dt s.timestep, iter := 0, res := DBL_MAX }
    refine ⟨m, ?_, ?_⟩
    · rw [(simulate_step_spec c s).2.2.2]
      have hb : (apply_boundaries c).count Event.solve = 0 := by
        rw [List.count_eq_zero]
        unfold apply_boundaries
        simp
      simp only [List.count_append, hm1, hb]
      split_ifs <;> simp
    · rw [(simulate_step_spec c s).2.2.2]
      simp only [List.filter_append, hm2, filter_ordered_apply_boundaries]
      split_ifs <;> simp [Event.ordered]

/-- After a pass of the main loop, `iter` and `res` are those left by the inner loop. -/
theorem simulate_step_iter_res (c : Case) (s : SimState) :
    (simulate_step c s).1.iter = (pressure_loop c
      { s with dt := c.calculate_dt s.timestep, iter := 0, res := DBL_MAX }).1.iter ∧
    (simulate_step c s).1.res = (pressure_loop c
      { s with dt := c.calculate_dt s.timestep, iter := 0, res := DBL_MAX }).1.res := by
  unfold simulate_step
  simp only []
  split_ifs <;> exact ⟨rfl, rfl⟩

/-- C9 (non-convergence is a soft failure).  In every pass of the main loop, with `m` the
number of sweeps made: the trace is some events without solver call or message, the `m`
sweeps, the message of non-convergence exactly if the rank is 0, `m ≥ max_iter` and the
residual left by the last sweep (the initial one if `m = 0`) is above the tolerance, and then
on every rank the velocity correction; the loop is left with the comparison
`res > _tolerance` false, as it is also for a residual that is NaN, or with `m ≥ max_iter`,
and the message occurs in the pass iff the rank is 0 and the loop was left with
`m ≥ max_iter` and the residual still above the tolerance. -/
theorem non_convergence_is_soft_failure (c : Case) (s : SimState) :
    ∃ (m : Nat) (pre post : List Event),
      (simulate_step c s).2 = pre ++
        (List.replicate m ([Event.communicate Matrix.p_matrix] ++
            (List.range c.boundaries).map Event.boundary_apply_pressure ++
            [Event.solve])).flatten ++
        (if c.rank = 0 ∧ c.max_iter ≤ m ∧ c.tolerance < (simulate_step c s).1.res then
          [Event.not_converged m (simulate_step c s).1.res] else []) ++
        [Event.calculate_velocities] ++ post ∧
      (∀ e ∈ pre ++ post, e ≠ Event.solve ∧ ∀ i q, e ≠ Event.not_converged i q) ∧
      (simulate_step c s).1.iter = m ∧
      (simulate_step c s).1.res
        = (if m = 0 then DBL_MAX else c.solve s.timestep ((m : Int) - 1)) ∧
      (¬ (simulate_step c s).1.res > c.tolerance ∨ c.max_iter ≤ m) ∧
      ((∃ i q, Event.not_converged i q ∈ (simulate_step c s).2) ↔
        (c.rank = 0 ∧ c.max_iter ≤ m ∧ c.tolerance < (simulate_step c s).1.res)) := by
  obtain ⟨m, e1, e2, e3, -, -, -, -, -, -, e10, -⟩ := pressure_loop_spec c
    { s with dt := c.calculate_dt s.timestep, iter := 0, res := DBL_MAX }
  obtain ⟨hi, hr⟩ := simulate_step_iter_res c s
  obtain ⟨-, -, -, htr⟩ := simulate_step_spec c s
  simp only [zero_add] at e2 e3
  rw [← hi] at e2 e10
  rw [← hr] at e3 e10
  rw [← hi, ← hr] at e1
  have hdiag : (if c.tolerance < (simulate_step c s).1.res then
        (if c.rank = 0 then
          [Event.not_converged (simulate_step c s).1.iter (simulate_step c s).1.res]
        else [])
      else [])
      = (if c.rank = 0 ∧ c.max_iter ≤ m ∧ c.tolerance < (simulate_step c s).1.res then
          [Event.not_converged m (simulate_step c s).1.res] else []) := by
    by_cases h1 : c.tolerance < (simulate_step c s).1.res
    · have := e10 h1
      rw [e2] at this
      by_cases h2 : c.rank = 0
      · rw [if_pos h1, if_pos h2, if_pos ⟨h2, this, h1⟩, e2]
      · rw [if_pos h1, if_neg h2, if_neg (fun h => h2 h.1)]
    · rw [if_neg h1, if_neg (fun h => h1 h.2.2)]
  rw [hdiag] at e1
  have hsw : (sweep c { s with dt := c.calculate_dt s.timestep, iter := 0, res := DBL_MAX }).2
      = [Event.communicate Matrix.p_matrix] ++
        (List.range c.boundaries).map Event.boundary_apply_pressure ++ [Event.solve] := rfl
  rw [hsw] at e1
  rw [e1] at htr
  have hshape : (simulate_step c s).2 =
      ([Event.calculate_dt] ++
        (if 0 < s.particle.length then
          [Event.reset_fluid_cells, Event.clear_cells, Event.surface_update_cells,
            Event.surface_apply_black]
        else []) ++
        (if c.energy_eq then
          [Event.calculate_temperature, Event.communicate Matrix.t_matrix]
        else []) ++
        [Event.calculate_fluxes, Event.communicate Matrix.f_matrix,
          Event.communicate Matrix.g_matrix, Event.calculate_rs]) ++
      (List.replicate m ([Event.communicate Matrix.p_matrix] ++
            (List.range c.boundaries).map Event.boundary_apply_pressure ++
            [Event.solve])).flatten ++
        (if c.rank = 0 ∧ c.max_iter ≤ m ∧ c.tolerance < (simulate_step c s).1.res then
          [Event.not_converged m (simulate_step c s).1.res] else []) ++
        [Event.calculate_velocities] ++
      ((if 0 < s.particle.length then
          [Event.surface_apply_black, Event.surface_apply_pressure, Event.advance_particles]
        else []) ++
        apply_boundaries c ++
        [Event.communicate Matrix.u_matrix, Event.communicate Matrix.v_matrix] ++
        (if c.rank = 0 ∧ (s.timestep + 1).tmod 5 = 0 then [Event.progress (s.timestep + 1)]
        else []) ++
        (if s.output_freq ≤ s.t + c.calculate_dt s.timestep then
          [Event.output_vtk (s.timestep + 1) c.rank]
        else [])) := by
    rw [htr]
    simp only [List.append_assoc]
  have hclean : ∀ e ∈
      ([Event.calculate_dt] ++
        (if 0 < s.particle.length then
          [Event.reset_fluid_cells, Event.clear_cells, Event.surface_update_cells,
            Event.surface_apply_black]
        else []) ++
        (if c.energy_eq then
          [Event.calculate_temperature, Event.communicate Matrix.t_matrix]
        else []) ++
        [Event.calculate_fluxes, Event.communicate Matrix.f_matrix,
          Event.communicate Matrix.g_matrix, Event.calculate_rs]) ++
      ((if 0 < s.particle.length then
          [Event.surface_apply_black, Event.surface_apply_pressure, Event.advance_particles]
        else []) ++
        apply_boundaries c ++
        [Event.communicate Matrix.u_matrix, Event.communicate Matrix.v_matrix] ++
        (if c.rank = 0 ∧ (s.timestep + 1).tmod 5 = 0 then [Event.progress (s.timestep + 1)]
        else []) ++
        (if s.output_freq ≤ s.t + c.calculate_dt s.timestep then
          [Event.output_vtk (s.timestep + 1) c.rank]
        else [])), e ≠ Event.solve ∧ ∀ i q, e ≠ Event.not_converged i q := by
    intro e he
    simp only [List.mem_append, apply_boundaries, List.mem_map, List.mem_range] at he
    rcases he with ((((he | he) | he) | he) | ((((he | ⟨i, -, he⟩) | he) | he) | he)) <;>
      try split_ifs at he
    all_goals first
      | (subst he; simp)
      | (simp only [List.mem_cons, List.mem_singleton, List.not_mem_nil, or_false] at he
         rcases he with he | he | he | he <;> subst he <;> simp)
      | (simp only [List.mem_cons, List.mem_singleton, List.not_mem_nil, or_false] at he
         rcases he with he | he | he <;> subst he <;> simp)
      | (simp only [List.mem_cons, List.mem_singleton, List.not_mem_nil, or_false] at he
         rcases he with he | he <;> subst he <;> simp)
      | (simp only [List.mem_cons, List.mem_singleton, List.not_mem_nil, or_false] at he
         subst he; simp)
      | (simp at he)
  obtain ⟨pre, post, hshape, hclean⟩ : ∃ pre post : List Event,
      (simulate_step c s).2 = pre ++
        (List.replicate m ([Event.communicate Matrix.p_matrix] ++
            (List.range c.boundaries).map Event.boundary_apply_pressure ++
            [Event.solve])).flatten ++
        (if c.rank = 0 ∧ c.max_iter ≤ m ∧ c.tolerance < (simulate_step c s).1.res then
          [Event.not_converged m (simulate_step c s).1.res] else []) ++
        [Event.calculate_velocities] ++ post ∧
      (∀ e ∈ pre ++ post, e ≠ Event.solve ∧ ∀ i q, e ≠ Event.not_converged i q) :=
    ⟨_, _, hshape, hclean⟩
  refine ⟨m, pre, post, hshape, hclean, e2, e3, ?_, ?_⟩
  · by_cases h : c.tolerance < (simulate_step c s).1.res
    · right
      have := e10 h
      rwa [e2] at this
    · exact Or.inl h
  · constructor
    · rintro ⟨i, q, hmem⟩
      rw [hshape] at hmem
      simp only [List.mem_append] at hmem
      rcases hmem with (((h | h) | h) | h) | h
      · exact absurd rfl ((hclean _ (List.mem_append_left _ h)).2 i q)
      · exfalso
        rw [List.mem_flatten] at h
        obtain ⟨l, hl, hel⟩ := h
        rw [List.eq_of_mem_replicate hl] at hel
        simp at hel
      · split_ifs at h with hc
        · exact hc
        · simp at h
      · simp at h
      · exact absurd rfl ((hclean _ (List.mem_append_right _ h)).2 i q)
    · intro hc
      refine ⟨m, (simulate_step c s).1.res, ?_⟩
      rw [hshape, if_pos hc]
      simp

/-- The first removal pass keeps the particles beyond none of the bounds of the
sub-domain. -/
theorem remove_outside_eq_filter (d : Domain) (dx dy : Double) (ps : List Particle) :
    remove_outside d dx dy ps = ps.filter fun p => decide (in_subdomain_bounds d dx dy p) := by
  induction ps with
  | nil => rfl
  | cons p ps ih =>
    rw [remove_outside, ih, List.filter_cons]
    by_cases h : in_subdomain_bounds d dx dy p
    · have h' := h
      unfold in_subdomain_bounds at h'
      obtain ⟨h1, h2, h3, h4⟩ := h'
      rw [if_neg (by
        rintro (k | k | k | k)
        · exact h3 k
        · exact h1 k
        · exact h4 k
        · exact h2 k)]
      simp [h]
    · have h' := h
      unfold in_subdomain_bounds at h'
      rw [if_pos (by
        by_contra hcon
        push_neg at hcon
        exact h' ⟨hcon.2.1, hcon.2.2.2, hcon.1, hcon.2.2.1⟩)]
      simp [h]

/-- The second removal pass keeps the particles that are not in a free-slip cell. -/
theorem remove_free_slip_eq_filter (cell : Int → Int → cell_type) (dx dy : Double)
    (ps : List Particle) :
    remove_free_slip cell dx dy ps
      = ps.filter fun p => decide (containing_cell cell dx dy p ≠ cell_type.FREE_SLIP) := by
  induction ps with
  | nil => rfl
  | cons p ps ih =>
    rw [remove_free_slip, ih, List.filter_cons]
    simp only [containing_cell]
    split_ifs with h1 h2 h2
    · simp [h1] at h2
    · rfl
    · rfl
    · simp [h1] at h2

/-- The particle list after a pass of the main loop. -/
theorem simulate_step_particle (c : Case) (s : SimState) :
    (simulate_step c s).1.particle
      = remove_free_slip (c.cell s.timestep) c.dx c.dy
          (remove_outside c.domain c.dx c.dy (s.particle.map (c.advance s.timestep))) := by
  obtain ⟨m, -, -, -, -, -, -, -, -, e9, -, -⟩ := pressure_loop_spec c
    { s with dt := c.calculate_dt s.timestep, iter := 0, res := DBL_MAX }
  simp only [] at e9
  unfold simulate_step
  simp only [e9]
  by_cases hp : 0 < s.particle.length
  · simp only [hp, if_true]
    split_ifs <;> rfl
  · have hnil : s.particle = [] := by
      cases hs : s.particle with
      | nil => rfl
      | cons a l => rw [hs] at hp; simp at hp
    simp only [hp, if_false]
    split_ifs <;>
      (show (pressure_loop c _).1.particle = _
       rw [e9, hnil]
       rfl)

/-- C10, counterexample.  On rank 0 of a 2 x 1 process grid over a 4 x 2 global grid with
`dx = dy = 1`, a particle at `(7/2, 3/2)` is within the global domain bounds and in a fluid
cell, yet the two removal passes remove it: its position is beyond the bounds of the
sub-domain of rank 0.  And a particle whose `x_pos` is NaN, which is within no bounds, is
kept by the first removal pass, because every comparison with NaN is false; the conversion
of its quotient `x_pos / dx` to `int` in the second pass is undefined. -/
theorem culling_by_global_bounds_counterexample :
    remove_free_slip (fun _ _ => cell_type.FLUID) 1 1
        (remove_outside (Case_coordinator (-1) (Double.fin 4) (Double.fin 2) 4 2 2 1) 1 1
          [{ x_pos := Double.fin (7 / 2), y_pos := Double.fin (3 / 2), u := 0, v := 0 }])
      = [] ∧
    remove_free_slip (fun _ _ => cell_type.FLUID) 1 1
        (remove_outside (Case_coordinator (-1) (Double.fin 4) (Double.fin 2) 4 2 2 1) 1 1
          [{ x_pos := Double.fin (7 / 2), y_pos := Double.fin (3 / 2), u := 0, v := 0 }])
      ≠ survivors_by_global_bounds
          (Case_coordinator (-1) (Double.fin 4) (Double.fin 2) 4 2 2 1)
          (fun _ _ => cell_type.FLUID) 1 1
          [{ x_pos := Double.fin (7 / 2), y_pos := Double.fin (3 / 2), u := 0, v := 0 }] ∧
    Double.representable (Double.fin (7 / 2)) ∧ Double.representable (Double.fin (3 / 2)) ∧
    remove_outside (Case_coordinator (-1) (Double.fin 4) (Double.fin 2) 4 2 2 1) 1 1
        [{ x_pos := Double.nan, y_pos := Double.fin (3 / 2), u := 0, v := 0 }]
      = [{ x_pos := Double.nan, y_pos := Double.fin (3 / 2), u := 0, v := 0 }] ∧
    ¬ in_global_bounds (Case_coordinator (-1) (Double.fin 4) (Double.fin 2) 4 2 2 1) 1 1
        { x_pos := Double.nan, y_pos := Double.fin (3 / 2), u := 0, v := 0 } ∧
    ¬ Double.int_range (Double.nan / 1) := by
  decide!

/-- C10, amended (particle culling).  Provided the conversions to `int` of the second removal
pass are defined, that is the quotients `x_pos / dx` and `y_pos / dy` of every advected
particle beyond none of the bounds of the sub-domain are finite with a truncation in the
range of `int`: the second pass converts the quotients of such particles only, and after the
two removal passes of a pass of the main loop the particle list is exactly the advected
particles, in their original order, whose position is beyond none of the bounds of the
rank's own sub-domain, as the comparisons of `double` decide it, and whose containing cell,
found from the rounded quotients, is not a free-slip cell, so the particle count never
increases; on a 1 x 1 process grid the bounds of the sub-domain are those of the global
domain, from cell 1 to cell `domain_size_x + 1` and `domain_size_y + 1`. -/
theorem particle_culling_by_subdomain_bounds (c : Case) (s : SimState)
    (hconv : ∀ p ∈ s.particle.map (c.advance s.timestep),
      in_subdomain_bounds c.domain c.dx c.dy p →
        Double.int_range (p.x_pos / c.dx) ∧ Double.int_range (p.y_pos / c.dy)) :
    (∀ p ∈ remove_outside c.domain c.dx c.dy (s.particle.map (c.advance s.timestep)),
      Double.int_range (p.x_pos / c.dx) ∧ Double.int_range (p.y_pos / c.dy)) ∧
    (simulate_step c s).1.particle
      = survivors_by_subdomain_bounds c.domain (c.cell s.timestep) c.dx c.dy
          (s.particle.map (c.advance s.timestep)) ∧
    (simulate_step c s).1.particle.length ≤ s.particle.length ∧
    (∀ (procNull : Int) (xlength ylength : Double) (imax jmax : Int),
      (Case_coordinator procNull xlength ylength imax jmax 1 1).imin + 1 = 1 ∧
      (Case_coordinator procNull xlength ylength imax jmax 1 1).imax - 1
        = (Case_coordinator procNull xlength ylength imax jmax 1 1).domain_size_x + 1 ∧
      (Case_coordinator procNull xlength ylength imax jmax 1 1).jmin + 1 = 1 ∧
      (Case_coordinator procNull xlength ylength imax jmax 1 1).jmax - 1
        = (Case_coordinator procNull xlength ylength imax jmax 1 1).domain_size_y + 1) := by
  have h : (simulate_step c s).1.particle
      = survivors_by_subdomain_bounds c.domain (c.cell s.timestep) c.dx c.dy
          (s.particle.map (c.advance s.timestep)) := by
    rw [simulate_step_particle, remove_outside_eq_filter, remove_free_slip_eq_filter,
      List.filter_filter]
    unfold survivors_by_subdomain_bounds
    congr 1
    funext p
    rw [Bool.and_comm]
  refine ⟨?_, h, ?_, ?_⟩
  · intro p hp
    rw [remove_outside_eq_filter, List.mem_filter] at hp
    exact hconv p hp.1 (of_decide_eq_true hp.2)
  · rw [h]
    unfold survivors_by_subdomain_bounds
    exact (List.length_filter_le _ _).trans (by rw [List.length_map])
  · intro procNull xlength ylength imax jmax
    simp [Case_coordinator, Case_domain_common, Domain.fresh]
    constructor <;> omega
/-- The elapsed time, the output threshold and the number of snapshots in the three passes of
the run with an overshooting first timestep. -/
theorem overshoot_case_run :
    (state_after overshoot_case 0).t = Double.fin 0 ∧
    (state_after overshoot_case 1).t = Double.fin (5 / 2) ∧
    (state_after overshoot_case 2).t = Double.fin 3 ∧
    (state_after overshoot_case 3).t = Double.fin (7 / 2) ∧
    (state_after overshoot_case 0).output_freq = Double.fin 1 ∧
    (state_after overshoot_case 1).output_freq = Double.fin 2 ∧
    snapshots_emitted overshoot_case 1 = 1 ∧ snapshots_emitted overshoot_case 3 = 3 := by
  have hdt0 : overshoot_case.calculate_dt ((0 : Nat) : Int) = Double.fin (5 / 2) := rfl
  have hdt1 : overshoot_case.calculate_dt ((1 : Nat) : Int) = Double.fin (1 / 2) := rfl
  have hdt2 : overshoot_case.calculate_dt ((2 : Nat) : Int) = Double.fin (1 / 2) := rfl
  have hF : overshoot_case.output_freq = Double.fin 1 := rfl
  have t0 : (state_after overshoot_case 0).t = Double.fin 0 := rfl
  have t1 : (state_after overshoot_case 1).t = Double.fin (5 / 2) := by
    rw [(state_after_succ overshoot_case 0).1, t0, hdt0]; decide!
  have t2 : (state_after overshoot_case 2).t = Double.fin 3 := by
    rw [(state_after_succ overshoot_case 1).1, t1, hdt1]; decide!
  have t3 : (state_after overshoot_case 3).t = Double.fin (7 / 2) := by
    rw [(state_after_succ overshoot_case 2).1, t2, hdt2]; decide!
  have f0 : (state_after overshoot_case 0).output_freq = Double.fin 1 := rfl
  have f1 : (state_after overshoot_case 1).output_freq = Double.fin 2 := by
    rw [(step_output_spec overshoot_case 0).2, f0, t1, hF]; decide!
  have f2 : (state_after overshoot_case 2).output_freq = Double.fin 3 := by
    rw [(step_output_spec overshoot_case 1).2, f1, t2, hF]; decide!
  have e1 : snapshots_emitted overshoot_case 1 = 1 := by
    rw [snapshots_emitted, (step_output_spec overshoot_case 0).1, f0, t1]
    decide!
  have e2 : snapshots_emitted overshoot_case 2 = 2 := by
    rw [snapshots_emitted, (step_output_spec overshoot_case 1).1, f1, t2, e1]
    decide!
  have e3 : snapshots_emitted overshoot_case 3 = 3 := by
    rw [snapshots_emitted, (step_output_spec overshoot_case 2).1, f2, t3, e2]
    decide!
  exact ⟨t0, t1, t2, t3, f0, f1, e1, e3⟩

/-- C13, counterexample.  In the run with output interval 1, end time 3 and timestep sizes
5/2, 1/2, 1/2, all of them doubles and all sums exact, the first pass overshoots the output
threshold 1 by more than one interval; the run ends after three passes at elapsed time 7/2,
having emitted three snapshots in the main loop, one in each pass, and the elapsed time has
reached three scheduled thresholds (1, 2 and 3): the number of snapshots emitted is not
smaller. -/
theorem skipped_outputs_counterexample :
    (state_after overshoot_case 0).output_freq ≤ (state_after overshoot_case 1).t ∧
    (state_after overshoot_case 0).output_freq + overshoot_case.output_freq
      < (state_after overshoot_case 1).t ∧
    simulate overshoot_case 4 = some (state_after overshoot_case 3,
      (simulate_init overshoot_case).2 ++
        ((List.range 3).map (step_trace overshoot_case)).flatten) ∧
    snapshots_emitted overshoot_case 3 = 3 ∧
    thresholds_reached overshoot_case.output_freq (state_after overshoot_case 3).t = 3 ∧
    ¬ (snapshots_emitted overshoot_case 3
        < thresholds_reached overshoot_case.output_freq (state_after overshoot_case 3).t) := by
  obtain ⟨t0, t1, t2, t3, f0, -, e1, e3⟩ := overshoot_case_run
  have hF : overshoot_case.output_freq = Double.fin 1 := rfl
  have hend : overshoot_case.t_end = Double.fin 3 := rfl
  have hreach : thresholds_reached overshoot_case.output_freq
      (state_after overshoot_case 3).t = 3 := by
    rw [hF, t3]
    show ⌊(7 / 2 : ℚ) / 1⌋.toNat = 3
    have : ⌊(7 / 2 : ℚ) / 1⌋ = 3 := by
      rw [Int.floor_eq_iff]
      norm_num
    rw [this]
    rfl
  have hrun := simulate_run overshoot_case 3
    (by
      intro j h2
      rw [hend]
      interval_cases j
      · rw [t0]; decide!
      · rw [t1]; decide!
      · rw [t2]; decide!)
    (by rw [hend, t3]; decide!) 4 (by omega)
  refine ⟨?_, ?_, hrun, e3, hreach, ?_⟩
  · rw [f0, t1]; decide!
  · rw [f0, hF, t1]; decide!
  · rw [e3, hreach]
    omega

/-- C13, amended (pending outputs).  If in some pass of the main loop the elapsed time
overshoots the output threshold by more than one output interval, that is it has reached the
threshold and is greater than the `double` sum of the threshold and the interval, then that
pass emits one snapshot only and leaves as the next threshold that sum, which is already
below the elapsed time: one scheduled output is pending at the end of the pass.  If the run
ends with that pass, `simulate` returns in that state, the pending output never written; and
if the elapsed time after the next pass has reached the pending threshold, the next pass
emits a snapshot. -/
theorem snapshots_lag_after_overshoot (c : Case) (n : Nat)
    (hreach : (state_after c n).output_freq ≤ (state_after c (n + 1)).t)
    (hover : (state_after c n).output_freq + c.output_freq < (state_after c (n + 1)).t) :
    (step_trace c n).countP Event.is_output = 1 ∧
    (state_after c (n + 1)).output_freq = (state_after c n).output_freq + c.output_freq ∧
    (state_after c (n + 1)).output_freq < (state_after c (n + 1)).t ∧
    ((∀ m, m ≤ n → (state_after c m).t ≤ c.t_end) →
      ¬ (state_after c (n + 1)).t ≤ c.t_end →
      ∀ fuel, n + 1 < fuel → simulate c fuel = some (state_after c (n + 1),
        (simulate_init c).2 ++ ((List.range (n + 1)).map (step_trace c)).flatten)) ∧
    ((state_after c (n + 1)).output_freq ≤ (state_after c (n + 2)).t →
      (step_trace c (n + 1)).countP Event.is_output = 1) := by
  have h1 : (step_trace c n).countP Event.is_output = 1 := by
    rw [(step_output_spec c n).1, if_pos hreach]
  have h2 : (state_after c (n + 1)).output_freq
      = (state_after c n).output_freq + c.output_freq := by
    rw [(step_output_spec c n).2, if_pos hreach]
  refine ⟨h1, h2, by rw [h2]; exact hover, ?_, ?_⟩
  · intro hle hend fuel hfuel
    exact simulate_run c (n + 1) (fun m hm => hle m (by omega)) hend fuel hfuel
  · intro h
    rw [(step_output_spec c (n + 1)).1, if_pos h]
/-! ## Instances of the theorems at concrete inputs -/

/-- C1 at a 3 x 2 process grid over a 7 x 5 global grid: the cell `(6, 4)`, in the column and
the row that absorb the remainders, lies in the tile of exactly one rank. -/
theorem partition_covers_each_cell_exactly_once_witness :
    (1 : Int) ≤ 3 ∧ (1 : Int) ≤ 2 ∧
    ∃! r : Int, 0 ≤ r ∧ r < 3 * 2 ∧
      ∃ d, rank_domain (-1) 1 1 7 5 3 2 r = some d ∧ d.interior 6 4 :=
  ⟨by decide, by decide,
    (partition_covers_each_cell_exactly_once (-1) 1 1 7 5 3 2 (by decide) (by decide)).2.1
      6 4 (by decide) (by decide) (by decide) (by decide)⟩

/-- C2 at a 3 x 2 process grid, for the ranks 1 and 2. -/
theorem neighbors_mutually_consistent_witness :
    (1 : Int) ≤ 3 ∧ (-1 : Int) < 0 ∧
    ∃ dA dB, rank_domain (-1) 1 1 7 5 3 2 1 = some dA ∧
      rank_domain (-1) 1 1 7 5 3 2 2 = some dB ∧
      (dA.east = 2 ↔ dB.west = 1) ∧ (dA.north = 2 ↔ dB.south = 1) :=
  ⟨by decide, by decide,
    neighbors_mutually_consistent (-1) 1 1 7 5 3 2 (by decide) (by decide) 1 2
      (by decide) (by decide) (by decide) (by decide)⟩

/-- C3, amended, at the sample configuration, in the state at the start of `simulate`. -/
theorem pressure_loop_makes_least_number_of_sweeps_witness :
    (0 : Int) ≤ sample_case.max_iter ∧
    ∃ k : Nat,
      (pressure_loop sample_case
        { (simulate_init sample_case).1 with iter := 0, res := DBL_MAX }).2.count Event.solve
        = k ∧
      (pressure_loop sample_case
        { (simulate_init sample_case).1 with iter := 0, res := DBL_MAX }).1.iter = k ∧
      (sample_case.max_iter ≤ k ∨
        ¬ residual sample_case (simulate_init sample_case).1.timestep k
          > sample_case.tolerance) ∧
      (∀ j : Nat, j < k →
        ¬ (sample_case.max_iter ≤ j ∨
          ¬ residual sample_case (simulate_init sample_case).1.timestep j
            > sample_case.tolerance)) ∧
      (k : Int) ≤ sample_case.max_iter :=
  ⟨by decide,
    pressure_loop_makes_least_number_of_sweeps sample_case (simulate_init sample_case).1
      (by decide)⟩

/-- The elapsed time in the four passes of the run of the sample configuration, whose
timestep size is always 5/16. -/
theorem sample_case_run :
    (state_after sample_case 0).t = Double.fin 0 ∧
    (state_after sample_case 1).t = Double.fin (5 / 16) ∧
    (state_after sample_case 2).t = Double.fin (10 / 16) ∧
    (state_after sample_case 3).t = Double.fin (15 / 16) ∧
    (state_after sample_case 4).t = Double.fin (20 / 16) := by
  have hdt : ∀ n : Nat, sample_case.calculate_dt n = Double.fin (5 / 16) := fun _ => rfl
  have t0 : (state_after sample_case 0).t = Double.fin 0 := rfl
  have t1 : (state_after sample_case 1).t = Double.fin (5 / 16) := by
    rw [(state_after_succ sample_case 0).1, t0, hdt]; decide!
  have t2 : (state_after sample_case 2).t = Double.fin (10 / 16) := by
    rw [(state_after_succ sample_case 1).1, t1, hdt]; decide!
  have t3 : (state_after sample_case 3).t = Double.fin (15 / 16) := by
    rw [(state_after_succ sample_case 2).1, t2, hdt]; decide!
  have t4 : (state_after sample_case 4).t = Double.fin (20 / 16) := by
    rw [(state_after_succ sample_case 3).1, t3, hdt]; decide!
  exact ⟨t0, t1, t2, t3, t4⟩

/-- C4, amended, at the sample configuration, with the end time 1 and the timestep size
5/16: every pass made increases the elapsed time, and the loop terminates. -/
theorem main_loop_terminates_past_end_time_witness :
    (∀ n : Nat, (∀ m, m ≤ n → (state_after sample_case m).t ≤ sample_case.t_end) →
      (state_after sample_case n).t
        < (state_after sample_case n).t + sample_case.calculate_dt n) ∧
    ∃ N : Nat,
      (∀ fuel, N < fuel → simulate sample_case fuel = some (state_after sample_case N,
        (simulate_init sample_case).2 ++
          ((List.range N).map (step_trace sample_case)).flatten)) ∧
      (∀ fuel, fuel ≤ N → simulate sample_case fuel = none) ∧
      (∀ n, n < N → (state_after sample_case n).t ≤ sample_case.t_end) ∧
      ¬ (state_after sample_case N).t ≤ sample_case.t_end ∧
      (sample_case.t_end = Double.nan ∨ sample_case.t_end < (state_after sample_case N).t) ∧
      (∀ n, n < N → (state_after sample_case n).t < (state_after sample_case (n + 1)).t) := by
  obtain ⟨t0, t1, t2, t3, t4⟩ := sample_case_run
  have hdt : ∀ n : Nat, sample_case.calculate_dt n = Double.fin (5 / 16) := fun _ => rfl
  have hend : sample_case.t_end = Double.fin 1 := rfl
  have hinc : ∀ n : Nat,
      (∀ m, m ≤ n → (state_after sample_case m).t ≤ sample_case.t_end) →
      (state_after sample_case n).t
        < (state_after sample_case n).t + sample_case.calculate_dt n := by
    intro n hle
    rcases Nat.lt_or_ge n 4 with hn | hn
    · rw [hdt]
      interval_cases n
      · rw [t0]; decide!
      · rw [t1]; decide!
      · rw [t2]; decide!
      · rw [t3]; decide!
    · exfalso
      have h4 := hle 4 hn
      rw [t4, hend] at h4
      exact absurd h4 (by decide!)
  exact ⟨hinc, (main_loop_terminates_past_end_time sample_case).2.2.2 hinc⟩

/-- C6 at a 3 x 2 process grid over a 7 x 5 global grid, for rank 5 in the final column and
the final row. -/
theorem tile_sizes_absorb_remainder_witness :
    (1 : Int) ≤ 3 ∧
    ∃ d, rank_domain (-1) 1 1 7 5 3 2 5 = some d ∧
      d.size_x = (if (5 : Int) % 3 = 3 - 1 then (7 : Int).tdiv 3 + (7 : Int).tmod 3
        else (7 : Int).tdiv 3) ∧
      d.size_y = (if (5 : Int) / 3 = 2 - 1 then (5 : Int).tdiv 2 + (5 : Int).tmod 2
        else (5 : Int).tdiv 2) ∧
      d.imax - d.imin = d.size_x + 2 ∧ d.jmax - d.jmin = d.size_y + 2 :=
  ⟨by decide,
    tile_sizes_absorb_remainder (-1) 1 1 7 5 3 2 (by decide) 5 (by decide) (by decide)⟩

/-- C7 at a 3 x 2 process grid, for rank 5 in the last column and the last row: no east and
no north neighbour. -/
theorem neighbor_sentinel_on_global_boundary_witness :
    (1 : Int) ≤ 3 ∧ (-1 : Int) < 0 ∧
    ∃ d, rank_domain (-1) 1 1 7 5 3 2 5 = some d ∧
      d.east = -1 ∧ d.north = -1 ∧ d.west = 4 ∧ d.south = 2 := by
  obtain ⟨d, hd, h1, -, h3, -, -, h6, -, h8, -⟩ :=
    neighbor_sentinel_on_global_boundary (-1) 1 1 7 5 3 2 (by decide) (by decide) 5
      (by decide) (by decide)
  exact ⟨by decide, by decide, d, hd, h1 (by decide), h3 (by decide),
    (h6 (by decide)).1, (h8 (by decide)).1⟩

/-- C8 at the sample configuration: the run of four passes, made with fuel 5, starts with the
trace of the start of `simulate`, followed by the traces of the passes. -/
theorem boundary_ordering_contract_witness :
    ∃ r : SimState × List Event, simulate sample_case 5 = some r ∧
      ∃ N : Nat, r.2 = (simulate_init sample_case).2 ++
        ((List.range N).map (step_trace sample_case)).flatten := by
  obtain ⟨t0, t1, t2, t3, t4⟩ := sample_case_run
  have hend : sample_case.t_end = Double.fin 1 := rfl
  have hsim := simulate_run sample_case 4
    (by
      intro j h2
      rw [hend]
      interval_cases j
      · rw [t0]; decide!
      · rw [t1]; decide!
      · rw [t2]; decide!
      · rw [t3]; decide!)
    (by rw [hend, t4]; decide!) 5 (by omega)
  exact ⟨_, hsim, (boundary_ordering_contract sample_case).2.1 5 _ hsim⟩

/-- C10, amended, at the configuration with two particles on rank 0 of a 2 x 1 process grid,
in the state at the start of `simulate`: the conversions are defined, and the particle at
`(5/2, 3/2)` stays while the one at `(7/2, 3/2)`, in the tile of rank 1, is removed. -/
theorem particle_culling_by_subdomain_bounds_witness :
    (∀ p ∈ (simulate_init particle_case).1.particle.map
        (particle_case.advance (simulate_init particle_case).1.timestep),
      in_subdomain_bounds particle_case.domain particle_case.dx particle_case.dy p →
        Double.int_range (p.x_pos / particle_case.dx) ∧
        Double.int_range (p.y_pos / particle_case.dy)) ∧
    (simulate_step particle_case (simulate_init particle_case).1).1.particle
      = [{ x_pos := Double.fin (5 / 2), y_pos := Double.fin (3 / 2), u := 0, v := 0 }] := by
  have hconv : ∀ p ∈ (simulate_init particle_case).1.particle.map
      (particle_case.advance (simulate_init particle_case).1.timestep),
      in_subdomain_bounds particle_case.domain particle_case.dx particle_case.dy p →
        Double.int_range (p.x_pos / particle_case.dx) ∧
        Double.int_range (p.y_pos / particle_case.dy) := by
    decide!
  refine ⟨hconv, ?_⟩
  rw [(particle_culling_by_subdomain_bounds particle_case (simulate_init particle_case).1
    hconv).2.1]
  decide!

/-- C13, amended, at the run with an overshooting first timestep: the first pass emits one
snapshot and leaves the threshold 2, below the elapsed time 5/2. -/
theorem snapshots_lag_after_overshoot_witness :
    (state_after overshoot_case 0).output_freq ≤ (state_after overshoot_case (0 + 1)).t ∧
    (state_after overshoot_case 0).output_freq + overshoot_case.output_freq
      < (state_after overshoot_case (0 + 1)).t ∧
    (step_trace overshoot_case 0).countP Event.is_output = 1 ∧
    (state_after overshoot_case (0 + 1)).output_freq
      = (state_after overshoot_case 0).output_freq + overshoot_case.output_freq ∧
    (state_after overshoot_case (0 + 1)).output_freq < (state_after overshoot_case (0 + 1)).t := by
  obtain ⟨-, t1, -, -, f0, -, -, -⟩ := overshoot_case_run
  have hF : overshoot_case.output_freq = Double.fin 1 := rfl
  have hreach : (state_after overshoot_case 0).output_freq
      ≤ (state_after overshoot_case (0 + 1)).t := by
    rw [f0, t1]; decide!
  have hover : (state_after overshoot_case 0).output_freq + overshoot_case.output_freq
      < (state_after overshoot_case (0 + 1)).t := by
    rw [f0, hF, t1]; decide!
  obtain ⟨h1, h2, h3, -, -⟩ := snapshots_lag_after_overshoot overshoot_case 0 hreach hover
  exact ⟨hreach, hover, h1, h2, h3⟩
/-! ## Theorems: the descriptor messages, the boundary list, the cell loop and the file
names -/

/-- C14 (descriptor distribution round trip).  For a rank `1 ≤ r < iproc * jproc`: the rank
receives the ten integers `build_domain` packed for it, and decoding them the way the
non-coordinating branch of `Case::Case` does gives the descriptor the rank holds, whose
bounds and sizes are the values `imin`, `jmin`, `imax`, `jmax`, `size_x`, `size_y` the
coordinator computed for `r` and whose neighbour slots 0, 1, 2, 3 are the east, north, west
and south entries the coordinator computed for `r`.  (`iproc, jproc ≥ 1` follow from such a
rank existing.) -/
theorem descriptor_round_trip (procNull : Int) (xlength ylength : Double)
    (imax jmax iproc jproc r : Int) (h1 : 1 ≤ r) (h2 : r < iproc * jproc) :
    (build_domain_data procNull imax jmax iproc jproc r).length = 10 ∧
    MPI_Recv (build_domain procNull imax jmax iproc jproc) r
      = some (build_domain_data procNull imax jmax iproc jproc r) ∧
    rank_domain procNull xlength ylength imax jmax iproc jproc r
      = some (Case_worker procNull xlength ylength imax jmax
          (build_domain_data procNull imax jmax iproc jproc r)) ∧
    (Case_worker procNull xlength ylength imax jmax
      (build_domain_data procNull imax jmax iproc jproc r)).imin
      = build_domain_imin imax iproc r ∧
    (Case_worker procNull xlength ylength imax jmax
      (build_domain_data procNull imax jmax iproc jproc r)).jmin
      = build_domain_jmin jmax iproc jproc r ∧
    (Case_worker procNull xlength ylength imax jmax
      (build_domain_data procNull imax jmax iproc jproc r)).imax
      = build_domain_imax imax iproc r ∧
    (Case_worker procNull xlength ylength imax jmax
      (build_domain_data procNull imax jmax iproc jproc r)).jmax
      = build_domain_jmax jmax iproc jproc r ∧
    (Case_worker procNull xlength ylength imax jmax
      (build_domain_data procNull imax jmax iproc jproc r)).size_x
      = build_domain_size_x imax iproc r ∧
    (Case_worker procNull xlength ylength imax jmax
      (build_domain_data procNull imax jmax iproc jproc r)).size_y
      = build_domain_size_y jmax iproc jproc r ∧
    (Case_worker procNull xlength ylength imax jmax
      (build_domain_data procNull imax jmax iproc jproc r)).domain_neighbors
      = [build_domain_neighbor_e procNull iproc r,
          build_domain_neighbor_n procNull iproc jproc r,
          build_domain_neighbor_w procNull iproc r,
          build_domain_neighbor_s procNull iproc r] := by
  have hrecv := MPI_Recv_build_domain procNull imax jmax iproc jproc r h1 h2
  refine ⟨rfl, hrecv, ?_, rfl, rfl, rfl, rfl, rfl, rfl, rfl⟩
  rw [rank_domain, if_neg (by omega), hrecv]
  rfl

/-- C14 at a 3 x 2 process grid over a 7 x 5 global grid, for rank 4: the decoded neighbour
slots are east 5, north none, west 3, south 1. -/
theorem descriptor_round_trip_witness :
    (1 : Int) ≤ 4 ∧ (4 : Int) < 3 * 2 ∧
    (Case_worker (-1) 1 1 7 5 (build_domain_data (-1) 7 5 3 2 4)).domain_neighbors
      = [5, -1, 3, 1] := by
  have h := descriptor_round_trip (-1) 1 1 7 5 3 2 4 (by decide) (by decide)
  exact ⟨by decide, by decide, by rw [h.2.2.2.2.2.2.2.2.2]; decide⟩

/-- The flag and the map of lines 129-136, by whether `energy_eq` is "on". -/
theorem Case_wall_temp_eq (fixed_wall_3 fixed_wall_4 : Int) (energy_eqn : String)
    (temp3 temp4 : Double) :
    Case_wall_temp fixed_wall_3 fixed_wall_4 energy_eqn temp3 temp4
      = if energy_eqn = "on" then
          (true, wall_map_insert (wall_map_insert [] fixed_wall_3 temp3) fixed_wall_4 temp4)
        else (false, []) := by
  unfold Case_wall_temp
  split_ifs <;> rfl

/-- The boundary list is the concatenation of at most one object per condition type. -/
theorem Case_boundaries_eq (g : GridCells) (wall_velocity UIN VIN : Double) (boolenergy_eq : Bool)
    (wall_temp : wall_map) :
    Case_boundaries g wall_velocity UIN VIN boolenergy_eq wall_temp
      = (if g.moving_wall_cells = [] then []
          else [Boundary.MovingWallBoundary g.moving_wall_cells wall_velocity]) ++
        (if g.inlet_cells = [] then [] else [Boundary.InletBoundary g.inlet_cells UIN VIN]) ++
        (if g.outlet_cells = [] then [] else [Boundary.OutletBoundary g.outlet_cells]) ++
        (if g.fixed_wall_cells = [] then []
          else [Boundary.FixedWallBoundary g.fixed_wall_cells
            (if boolenergy_eq = true then some wall_temp else none)]) ++
        (if g.adiabatic_cells = [] then []
          else [Boundary.AdiabaticBoundary g.adiabatic_cells]) ++
        (if g.free_slip_cells = [] then []
          else [Boundary.FreeSlipBoundary g.free_slip_cells]) := by
  unfold Case_boundaries
  simp only [List.isEmpty_iff]
  cases boolenergy_eq <;>
  by_cases h1 : g.moving_wall_cells = [] <;> by_cases h2 : g.inlet_cells = [] <;>
  by_cases h3 : g.outlet_cells = [] <;> by_cases h4 : g.fixed_wall_cells = [] <;>
  by_cases h5 : g.adiabatic_cells = [] <;> by_cases h6 : g.free_slip_cells = [] <;>
  simp only [h1, h2, h3, h4, h5, h6, not_true_eq_false, not_false_eq_true, if_true, if_false,
    List.nil_append, List.append_nil, List.cons_append, Bool.false_eq_true, reduceCtorEq]

/-- C11 (boundary set construction).  For every combination of empty and non-empty cell sets
and either setting of the energy equation: the condition types of the boundary list are
moving wall, inlet, outlet, fixed wall, adiabatic, free slip, in this order, restricted to
the types whose cell set is non-empty, so one object for each such type and none for the
others; every object owns the cell set of its type; and a fixed-wall object in the list
carries a temperature map iff the energy equation is on (`energy_eq` is "on", which sets
`boolenergy_eq`), the map then being the one built from `wall_temp_3` and `wall_temp_4`. -/
theorem boundary_list_one_object_per_nonempty_type (g : GridCells)
    (fixed_wall_3 fixed_wall_4 : Int) (energy_eqn : String)
    (temp3 temp4 wall_velocity UIN VIN : Double) :
    (Case_boundary_list g fixed_wall_3 fixed_wall_4 energy_eqn temp3 temp4 wall_velocity
        UIN VIN).map Boundary.type
      = [condition_type.moving_wall, condition_type.inlet, condition_type.outlet,
          condition_type.fixed_wall, condition_type.adiabatic, condition_type.free_slip].filter
          (fun k => decide (g.of_type k ≠ [])) ∧
    (∀ b ∈ Case_boundary_list g fixed_wall_3 fixed_wall_4 energy_eqn temp3 temp4
        wall_velocity UIN VIN, b.cells = g.of_type b.type) ∧
    (∀ cells wall_temp, Boundary.FixedWallBoundary cells wall_temp ∈
        Case_boundary_list g fixed_wall_3 fixed_wall_4 energy_eqn temp3 temp4
          wall_velocity UIN VIN →
      (wall_temp.isSome = true ↔ energy_eqn = "on") ∧
      (energy_eqn = "on" → wall_temp
        = some (wall_map_insert (wall_map_insert [] fixed_wall_3 temp3) fixed_wall_4 temp4))) ∧
    ((Case_wall_temp fixed_wall_3 fixed_wall_4 energy_eqn temp3 temp4).1 = true ↔
      energy_eqn = "on") := by
  have hb : (Case_wall_temp fixed_wall_3 fixed_wall_4 energy_eqn temp3 temp4).1 = true ↔
      energy_eqn = "on" := by
    rw [Case_wall_temp_eq]
    split_ifs with h <;> simp [h]
  have hm : energy_eqn = "on" →
      (Case_wall_temp fixed_wall_3 fixed_wall_4 energy_eqn temp3 temp4).2
        = wall_map_insert (wall_map_insert [] fixed_wall_3 temp3) fixed_wall_4 temp4 := by
    intro h
    rw [Case_wall_temp_eq, if_pos h]
  refine ⟨?_, ?_, ?_, hb⟩
  · rw [Case_boundary_list, Case_boundaries_eq]
    by_cases h1 : g.moving_wall_cells = [] <;> by_cases h2 : g.inlet_cells = [] <;>
    by_cases h3 : g.outlet_cells = [] <;> by_cases h4 : g.fixed_wall_cells = [] <;>
    by_cases h5 : g.adiabatic_cells = [] <;> by_cases h6 : g.free_slip_cells = [] <;>
    simp [h1, h2, h3, h4, h5, h6, GridCells.of_type, Boundary.type, List.filter]
  · intro b hmem
    rw [Case_boundary_list, Case_boundaries_eq] at hmem
    simp only [List.mem_append] at hmem
    rcases hmem with ((((h | h) | h) | h) | h) | h <;> split_ifs at h <;>
      first
      | (rw [List.mem_singleton] at h; subst h; rfl)
      | (simp at h)
  · intro cells wall_temp hmem
    rw [Case_boundary_list, Case_boundaries_eq] at hmem
    simp only [List.mem_append] at hmem
    have hw : wall_temp
        = if (Case_wall_temp fixed_wall_3 fixed_wall_4 energy_eqn temp3 temp4).1 = true then
            some (Case_wall_temp fixed_wall_3 fixed_wall_4 energy_eqn temp3 temp4).2
          else none := by
      rcases hmem with ((((h | h) | h) | h) | h) | h
      · split_ifs at h <;> simp at h
      · split_ifs at h <;> simp at h
      · split_ifs at h <;> simp at h
      · by_cases hf : g.fixed_wall_cells = []
        · rw [if_pos hf] at h
          simp at h
        · rw [if_neg hf, List.mem_singleton] at h
          injection h
      · split_ifs at h <;> simp at h
      · split_ifs at h <;> simp at h
    by_cases hon : energy_eqn = "on"
    · rw [hw, if_pos (hb.mpr hon), hm hon]
      exact ⟨⟨fun _ => hon, fun _ => rfl⟩, fun _ => rfl⟩
    · rw [hw, if_neg (fun h => hon (hb.mp h))]
      exact ⟨⟨fun hs => by simp at hs, fun hen => absurd hen hon⟩, fun hen => absurd hen hon⟩

/-- The fields after the body of the cell loop at `(i, j)`. -/
theorem clear_cell_eq (grid : GridTypes) (field : Fields) (i j : Int) :
    clear_cell grid field i j =
      { p := assign field.p i j 0
        u := if grid.neighbour_type i j border_position.RIGHT = cell_type.EMPTY then
            assign field.u i j 0 else field.u
        v := if grid.neighbour_type i j border_position.TOP = cell_type.EMPTY then
            assign field.v i j 0 else field.v
        f := if grid.neighbour_type i j border_position.RIGHT = cell_type.EMPTY then
            assign field.f i j 0 else field.f
        g := if grid.neighbour_type i j border_position.TOP = cell_type.EMPTY then
            assign field.g i j 0 else field.g } := by
  have htest : grid.type i j ≠ cell_type.FLUID ∨ grid.type i j ≠ cell_type.SURFACE := by
    cases grid.type i j <;> simp
  unfold clear_cell
  rw [if_pos htest]
  split_ifs <;> rfl

/-- Clearing the entries `(i, j)` of a matrix, for the `i` in `l` at which `c` holds, one after
the other: the entry `(a, b)` is cleared iff `b = j`, `a` is in `l` and `c` holds at `a`. -/
theorem foldl_assign (c : Int → Prop) [DecidablePred c] (j : Int) (l : List Nat)
    (m : Int → Int → Double) (a b : Int) :
    (l.foldl (fun m (i : Nat) => if c (i : Int) then assign m (i : Int) j 0 else m) m) a b
      = if (a ∈ l.map (fun i : Nat => (i : Int)) ∧ b = j ∧ c a) then 0 else m a b := by
  induction l using List.reverseRecOn with
  | nil =>
    rw [List.foldl_nil, if_neg]
    rintro ⟨h, -⟩
    exact absurd h (List.not_mem_nil _)
  | append_singleton l i ih =>
    rw [List.foldl_append, List.foldl_cons, List.foldl_nil]
    have hmem : a ∈ (l ++ [i]).map (fun i : Nat => (i : Int))
        ↔ a ∈ l.map (fun i : Nat => (i : Int)) ∨ a = (i : Int) := by
      rw [List.map_append, List.mem_append, List.map_cons, List.map_nil, List.mem_singleton]
    by_cases hc : c (i : Int)
    · rw [if_pos hc]
      have e : ∀ M : Int → Int → Double,
          assign M (i : Int) j 0 a b = if a = (i : Int) ∧ b = j then 0 else M a b :=
        fun _ => rfl
      rw [e]
      by_cases hab : a = (i : Int) ∧ b = j
      · rw [if_pos hab, if_pos]
        exact ⟨hmem.mpr (Or.inr hab.1), hab.2, by rw [hab.1]; exact hc⟩
      · rw [if_neg hab, ih]
        by_cases h : a ∈ l.map (fun i : Nat => (i : Int)) ∧ b = j ∧ c a
        · rw [if_pos h, if_pos ⟨hmem.mpr (Or.inl h.1), h.2⟩]
        · rw [if_neg h, if_neg]
          rintro ⟨h1, h2, h3⟩
          rcases hmem.mp h1 with h1 | h1
          · exact h ⟨h1, h2, h3⟩
          · exact hab ⟨h1, h2⟩
    · rw [if_neg hc, ih]
      by_cases h : a ∈ l.map (fun i : Nat => (i : Int)) ∧ b = j ∧ c a
      · rw [if_pos h, if_pos ⟨hmem.mpr (Or.inl h.1), h.2⟩]
      · rw [if_neg h, if_neg]
        rintro ⟨h1, h2, h3⟩
        rcases hmem.mp h1 with h1 | h1
        · exact h ⟨h1, h2, h3⟩
        · rw [h1] at h3
          exact hc h3

/-- Each matrix goes through the cells of a row on its own. -/
theorem clear_row_list (grid : GridTypes) (j : Int) (l : List Nat) (field : Fields) :
    (l.foldl (fun field (i : Nat) => clear_cell grid field (i : Int) j) field)
      = { p := l.foldl (fun m (i : Nat) => if True then assign m (i : Int) j 0 else m) field.p
          u := l.foldl (fun m (i : Nat) =>
            if grid.neighbour_type (i : Int) j border_position.RIGHT = cell_type.EMPTY then
              assign m (i : Int) j 0 else m) field.u
          v := l.foldl (fun m (i : Nat) =>
            if grid.neighbour_type (i : Int) j border_position.TOP = cell_type.EMPTY then
              assign m (i : Int) j 0 else m) field.v
          f := l.foldl (fun m (i : Nat) =>
            if grid.neighbour_type (i : Int) j border_position.RIGHT = cell_type.EMPTY then
              assign m (i : Int) j 0 else m) field.f
          g := l.foldl (fun m (i : Nat) =>
            if grid.neighbour_type (i : Int) j border_position.TOP = cell_type.EMPTY then
              assign m (i : Int) j 0 else m) field.g } := by
  induction l using List.reverseRecOn with
  | nil => rfl
  | append_singleton l i ih =>
    simp only [List.foldl_append, List.foldl_cons, List.foldl_nil]
    rw [ih, clear_cell_eq]
    simp only [if_true]

/-- The indices `1, ..., n` of a loop `for (int i = 1; i < n + 1; ++i)`. -/
theorem mem_loop_indices (n a : Int) :
    a ∈ (List.range' 1 n.toNat).map (fun i : Nat => (i : Int)) ↔ 1 ≤ a ∧ a ≤ n := by
  rw [List.mem_map]
  constructor
  · rintro ⟨i, hi, rfl⟩
    rw [List.mem_range'_1] at hi
    omega
  · rintro ⟨h1, h2⟩
    refine ⟨a.toNat, ?_, by omega⟩
    rw [List.mem_range'_1]
    omega

/-- The fields after the cell loop has run through row `j`. -/
theorem clear_row_at (grid : GridTypes) (size_x : Int) (field : Fields) (j a b : Int) :
    (clear_row grid size_x field j).p a b
      = (if (1 ≤ a ∧ a ≤ size_x) ∧ b = j then 0 else field.p a b) ∧
    (clear_row grid size_x field j).u a b
      = (if (1 ≤ a ∧ a ≤ size_x) ∧ b = j ∧
          grid.neighbour_type a b border_position.RIGHT = cell_type.EMPTY then 0
        else field.u a b) ∧
    (clear_row grid size_x field j).v a b
      = (if (1 ≤ a ∧ a ≤ size_x) ∧ b = j ∧
          grid.neighbour_type a b border_position.TOP = cell_type.EMPTY then 0
        else field.v a b) ∧
    (clear_row grid size_x field j).f a b
      = (if (1 ≤ a ∧ a ≤ size_x) ∧ b = j ∧
          grid.neighbour_type a b border_position.RIGHT = cell_type.EMPTY then 0
        else field.f a b) ∧
    (clear_row grid size_x field j).g a b
      = (if (1 ≤ a ∧ a ≤ size_x) ∧ b = j ∧
          grid.neighbour_type a b border_position.TOP = cell_type.EMPTY then 0
        else field.g a b) := by
  have hm := mem_loop_indices size_x a
  unfold clear_row
  rw [clear_row_list]
  simp only []
  have key : ∀ (pos : border_position) (m : Int → Int → Double),
      (List.range' 1 size_x.toNat).foldl (fun m (i : Nat) =>
          if grid.neighbour_type (i : Int) j pos = cell_type.EMPTY then
            assign m (i : Int) j 0 else m) m a b
        = (if (1 ≤ a ∧ a ≤ size_x) ∧ b = j ∧
            grid.neighbour_type a b pos = cell_type.EMPTY then 0 else m a b) := by
    intro pos m
    rw [foldl_assign (fun x : Int => grid.neighbour_type x j pos = cell_type.EMPTY) j]
    by_cases h : (1 ≤ a ∧ a ≤ size_x) ∧ b = j ∧
        grid.neighbour_type a b pos = cell_type.EMPTY
    · rw [if_pos h, if_pos ⟨hm.mpr h.1, h.2.1, by rw [← h.2.1]; exact h.2.2⟩]
    · rw [if_neg h, if_neg (fun k => h ⟨hm.mp k.1, k.2.1, by rw [k.2.1]; exact k.2.2⟩)]
  refine ⟨?_, key _ _, key _ _, key _ _, key _ _⟩
  rw [foldl_assign (fun _ => True) j]
  by_cases h : (1 ≤ a ∧ a ≤ size_x) ∧ b = j
  · rw [if_pos h, if_pos ⟨hm.mpr h.1, h.2, trivial⟩]
  · rw [if_neg h, if_neg (fun k => h ⟨hm.mp k.1, k.2.1⟩)]

/-- Clearing under one of two conditions, one after the other. -/
theorem ite_zero_or (A B1 B2 B C : Prop) [Decidable A] [Decidable B1] [Decidable B2]
    [Decidable B] [Decidable C] (hB : B ↔ B1 ∨ B2) (x : Double) :
    (if A ∧ B2 ∧ C then 0 else if A ∧ B1 ∧ C then 0 else x) = if A ∧ B ∧ C then 0 else x := by
  by_cases hA : A <;> by_cases h1 : B1 <;> by_cases h2 : B2 <;> by_cases hC : C <;>
    simp [hA, h1, h2, hC, hB]

/-- The fields after the cell loop has run through the rows `j` in `lj`. -/
theorem clear_rows_list (grid : GridTypes) (size_x : Int) (lj : List Nat) (field : Fields)
    (a b : Int) :
    (lj.foldl (fun field (j : Nat) => clear_row grid size_x field (j : Int)) field).p a b
      = (if (1 ≤ a ∧ a ≤ size_x) ∧ b ∈ lj.map (fun j : Nat => (j : Int)) ∧ True then 0
        else field.p a b) ∧
    (lj.foldl (fun field (j : Nat) => clear_row grid size_x field (j : Int)) field).u a b
      = (if (1 ≤ a ∧ a ≤ size_x) ∧ b ∈ lj.map (fun j : Nat => (j : Int)) ∧
          grid.neighbour_type a b border_position.RIGHT = cell_type.EMPTY then 0
        else field.u a b) ∧
    (lj.foldl (fun field (j : Nat) => clear_row grid size_x field (j : Int)) field).v a b
      = (if (1 ≤ a ∧ a ≤ size_x) ∧ b ∈ lj.map (fun j : Nat => (j : Int)) ∧
          grid.neighbour_type a b border_position.TOP = cell_type.EMPTY then 0
        else field.v a b) ∧
    (lj.foldl (fun field (j : Nat) => clear_row grid size_x field (j : Int)) field).f a b
      = (if (1 ≤ a ∧ a ≤ size_x) ∧ b ∈ lj.map (fun j : Nat => (j : Int)) ∧
          grid.neighbour_type a b border_position.RIGHT = cell_type.EMPTY then 0
        else field.f a b) ∧
    (lj.foldl (fun field (j : Nat) => clear_row grid size_x field (j : Int)) field).g a b
      = (if (1 ≤ a ∧ a ≤ size_x) ∧ b ∈ lj.map (fun j : Nat => (j : Int)) ∧
          grid.neighbour_type a b border_position.TOP = cell_type.EMPTY then 0
        else field.g a b) := by
  induction lj using List.reverseRecOn with
  | nil =>
    simp only [List.foldl_nil, List.map_nil, List.not_mem_nil, false_and, and_false, if_false,
      and_self]
  | append_singleton l j ih =>
    obtain ⟨hp, hu, hv, hf, hg⟩ := ih
    have hmem : b ∈ (l ++ [j]).map (fun j : Nat => (j : Int))
        ↔ b ∈ l.map (fun j : Nat => (j : Int)) ∨ b = (j : Int) := by
      rw [List.map_append, List.mem_append, List.map_cons, List.map_nil, List.mem_singleton]
    obtain ⟨kp, ku, kv, kf, kg⟩ := clear_row_at grid size_x
      (l.foldl (fun field (j : Nat) => clear_row grid size_x field (j : Int)) field) j a b
    simp only [List.foldl_append, List.foldl_cons, List.foldl_nil]
    rw [kp, ku, kv, kf, kg, hp, hu, hv, hf, hg]
    refine ⟨?_, ite_zero_or _ _ _ _ _ hmem _, ite_zero_or _ _ _ _ _ hmem _,
      ite_zero_or _ _ _ _ _ hmem _, ite_zero_or _ _ _ _ _ hmem _⟩
    rw [← ite_zero_or (1 ≤ a ∧ a ≤ size_x) _ (b = (j : Int)) _ True hmem]
    simp only [and_true]

/-- C12 (the cell-type test of the particle branch is always true).  The test
`type != FLUID || type != SURFACE` holds for every cell classification; so the cell loop of
the particle branch sets the pressure to zero at every interior cell
`(1..size_x) x (1..size_y)` whatever its type, clears `v` and `g` at exactly the interior
cells whose top neighbour is empty and `u` and `f` at exactly the interior cells whose right
neighbour is empty, and changes nothing else; and a pass of the main loop runs the cell loop
iff the particle list is non-empty. -/
theorem cell_test_always_true_clears_every_interior_cell :
    (∀ t : cell_type, t ≠ cell_type.FLUID ∨ t ≠ cell_type.SURFACE) ∧
    (∀ (grid : GridTypes) (size_x size_y : Int) (field : Fields) (a b : Int),
      (clear_cells grid size_x size_y field).p a b
        = (if (1 ≤ a ∧ a ≤ size_x) ∧ (1 ≤ b ∧ b ≤ size_y) then 0 else field.p a b) ∧
      (clear_cells grid size_x size_y field).v a b
        = (if (1 ≤ a ∧ a ≤ size_x) ∧ (1 ≤ b ∧ b ≤ size_y) ∧
            grid.neighbour_type a b border_position.TOP = cell_type.EMPTY then 0
          else field.v a b) ∧
      (clear_cells grid size_x size_y field).g a b
        = (if (1 ≤ a ∧ a ≤ size_x) ∧ (1 ≤ b ∧ b ≤ size_y) ∧
            grid.neighbour_type a b border_position.TOP = cell_type.EMPTY then 0
          else field.g a b) ∧
      (clear_cells grid size_x size_y field).u a b
        = (if (1 ≤ a ∧ a ≤ size_x) ∧ (1 ≤ b ∧ b ≤ size_y) ∧
            grid.neighbour_type a b border_position.RIGHT = cell_type.EMPTY then 0
          else field.u a b) ∧
      (clear_cells grid size_x size_y field).f a b
        = (if (1 ≤ a ∧ a ≤ size_x) ∧ (1 ≤ b ∧ b ≤ size_y) ∧
            grid.neighbour_type a b border_position.RIGHT = cell_type.EMPTY then 0
          else field.f a b)) ∧
    (∀ (c : Case) (s : SimState),
      Event.clear_cells ∈ (simulate_step c s).2 ↔ 0 < s.particle.length) := by
  refine ⟨?_, ?_, ?_⟩
  · intro t
    cases t <;> simp
  · intro grid size_x size_y field a b
    obtain ⟨hp, hu, hv, hf, hg⟩ := clear_rows_list grid size_x (List.range' 1 size_y.toNat)
      field a b
    have hm := mem_loop_indices size_y b
    unfold clear_cells
    rw [hp, hu, hv, hf, hg]
    simp only [hm, and_true]
  · intro c s
    rw [(simulate_step_spec c s).2.2.2]
    simp only [List.mem_append]
    constructor
    · intro h
      by_contra hp
      rw [if_neg hp, if_neg hp] at h
      rcases h with (((((((((h | h) | h) | h) | h) | h) | h) | h) | h) | h) | h
      · simp at h
      · simp at h
      · split_ifs at h <;> simp at h
      · simp at h
      · rcases pressure_loop_events c _ _ h with k | ⟨i, k⟩ | k | ⟨i, q, k⟩ <;> simp at k
      · simp at h
      · simp at h
      · simp [apply_boundaries] at h
      · simp at h
      · split_ifs at h <;> simp at h
      · split_ifs at h <;> simp at h
    · intro hp
      rw [if_pos hp]
      simp

/-- The first loop run for `i = n - 1, ..., 0` handles the first `n` characters of the file
name from the last to the first. -/
theorem scan_loop_eq_foldl (file_name : List Char) :
    ∀ (n : Nat) (st : ScanState), n ≤ file_name.length →
      scan_loop file_name n st
        = (file_name.take n).reverse.foldl (fun st c => scan_char c st) st := by
  intro n
  induction n with
  | zero => intro st _; rfl
  | succ k ih =>
    intro st hk
    have hget : file_name[k]? = some (file_name.getD k ' ') := by
      rw [List.getD_eq_getElem?_getD, List.getElem?_eq_getElem (by omega)]
      rfl
    rw [scan_loop, ih _ (by omega), List.take_succ, hget]
    simp

/-- The second loop run for `i = n - 1, ..., 0` appends the first `n` characters of the file
name from the last to the first. -/
theorem temp_dir_loop_eq (file_name : List Char) :
    ∀ (n : Nat) (temp_dir : List Char), n ≤ file_name.length →
      temp_dir_loop file_name n temp_dir = temp_dir ++ (file_name.take n).reverse := by
  intro n
  induction n with
  | zero => intro t _; simp [temp_dir_loop]
  | succ k ih =>
    intro t hk
    have hget : file_name[k]? = some (file_name.getD k ' ') := by
      rw [List.getD_eq_getElem?_getD, List.getElem?_eq_getElem (by omega)]
      rfl
    rw [temp_dir_loop, ih _ (by omega), List.take_succ, hget]
    simp

/-- Before the last slash is met, every character goes to the case name. -/
theorem scan_without_slash (l : List Char) (hl : '/' ∉ l) (cn px : List Char) :
    l.foldl (fun st c => scan_char c st)
        { case_name_flag := true, prefix_flag := false, case_name := cn, prefix_path := px }
      = { case_name_flag := true, prefix_flag := false, case_name := cn ++ l,
          prefix_path := px } := by
  induction l generalizing cn with
  | nil => simp
  | cons c l ih =>
    have hc : c ≠ '/' := fun h => hl (by rw [h]; exact List.mem_cons_self _ _)
    have hl' : '/' ∉ l := fun h => hl (List.mem_cons_of_mem _ h)
    rw [List.foldl_cons]
    have hstep : scan_char c
        { case_name_flag := true, prefix_flag := false, case_name := cn, prefix_path := px }
        = { case_name_flag := true, prefix_flag := false, case_name := cn ++ [c],
            prefix_path := px } := by
      simp [scan_char, hc]
    rw [hstep, ih hl', List.append_assoc]
    rfl

/-- Once a slash has been met, every character goes to the prefix. -/
theorem scan_after_slash (l : List Char) (cn px : List Char) :
    l.foldl (fun st c => scan_char c st)
        { case_name_flag := false, prefix_flag := true, case_name := cn, prefix_path := px }
      = { case_name_flag := false, prefix_flag := true, case_name := cn,
          prefix_path := px ++ l } := by
  induction l generalizing px with
  | nil => simp
  | cons c l ih =>
    rw [List.foldl_cons]
    have hstep : scan_char c
        { case_name_flag := false, prefix_flag := true, case_name := cn, prefix_path := px }
        = { case_name_flag := false, prefix_flag := true, case_name := cn,
            prefix_path := px ++ [c] } := by
      by_cases hc : c = '/' <;> simp [scan_char, hc]
    rw [hstep, ih, List.append_assoc]
    rfl

/-- The first loop on a file name `pre ++ comp` whose part `comp` has no slash and whose part
`pre` is empty or ends in a slash. -/
theorem scan_loop_split (pre comp : List Char) (hcomp : '/' ∉ comp)
    (hpre : pre = [] ∨ pre.getLast? = some '/') :
    scan_loop (pre ++ comp) (pre ++ comp).length
        { case_name_flag := true, prefix_flag := false, case_name := [], prefix_path := [] }
      = { case_name_flag := pre.isEmpty, prefix_flag := !pre.isEmpty,
          case_name := comp.reverse, prefix_path := pre.reverse } := by
  rw [scan_loop_eq_foldl _ _ _ (le_refl _), List.take_length, List.reverse_append,
    List.foldl_append, scan_without_slash _ (by simpa using hcomp), List.nil_append]
  rcases hpre with h | h
  · subst h
    rfl
  · obtain ⟨init, rfl⟩ : ∃ init, pre = init ++ ['/'] := by
      rcases List.eq_nil_or_concat pre with h0 | ⟨init, c, h0⟩
      · rw [h0] at h; simp at h
      · refine ⟨init, ?_⟩
        rw [h0] at h ⊢
        simp at h
        rw [h]
        simp
    rw [List.reverse_append, List.reverse_singleton, List.singleton_append, List.foldl_cons]
    have hstep : scan_char '/'
        { case_name_flag := true, prefix_flag := false, case_name := comp.reverse,
          prefix_path := [] }
        = { case_name_flag := false, prefix_flag := true, case_name := comp.reverse,
            prefix_path := ['/'] } := by
      simp [scan_char]
    rw [hstep, scan_after_slash]
    simp

/-- Every file name splits at its last slash. -/
theorem split_at_last_slash (file_name : List Char) :
    ∃ pre comp : List Char, file_name = pre ++ comp ∧ '/' ∉ comp ∧
      (pre = [] ∨ pre.getLast? = some '/') := by
  induction file_name using List.reverseRecOn with
  | nil => exact ⟨[], [], rfl, List.not_mem_nil _, Or.inl rfl⟩
  | append_singleton l c ih =>
    obtain ⟨pre, comp, hl, hcomp, hpre⟩ := ih
    by_cases hc : c = '/'
    · refine ⟨l ++ [c], [], by simp, List.not_mem_nil _, Or.inr ?_⟩
      rw [hc]
      simp
    · refine ⟨pre, comp ++ [c], by rw [hl, List.append_assoc], ?_, hpre⟩
      intro h
      rcases List.mem_append.mp h with h | h
      · exact hcomp h
      · exact hc (List.mem_singleton.mp h).symm

/-- C15 (file names).  Every file name is `pre ++ comp` with `comp`, its final path component,
free of slashes and `pre` empty or ending in a slash.  For such a file name whose final
component has at least 4 characters, `set_file_names` called with empty `_case_name` and
`_prefix` returns, and then `_prefix` is `pre`, the file name up to and including its last
slash, `_case_name` is the final component without its last 4 characters, `_dict_name` is the
file name without its last 4 characters followed by "_Output", and `_geom_name` gets `pre`
in front unless it is "NONE", which stays. -/
theorem set_file_names_splits_at_last_slash :
    (∀ file_name : List Char, ∃ pre comp : List Char, file_name = pre ++ comp ∧
      '/' ∉ comp ∧ (pre = [] ∨ pre.getLast? = some '/')) ∧
    (∀ (pre comp dict_name geom_name : List Char), '/' ∉ comp →
      (pre = [] ∨ pre.getLast? = some '/') → 4 ≤ comp.length →
      set_file_names
          { case_name := [], prefix_path := [], dict_name := dict_name,
            geom_name := geom_name } (pre ++ comp)
        = some
          { prefix_path := pre
            case_name := comp.take (comp.length - 4)
            dict_name := (pre ++ comp).take ((pre ++ comp).length - 4) ++ "_Output".toList
            geom_name := if geom_name = "NONE".toList then geom_name
              else pre ++ geom_name }) := by
  refine ⟨split_at_last_slash, ?_⟩
  intro pre comp dict_name geom_name hcomp hpre hlen
  have h1 : (((((pre ++ comp).length : Nat) : Int) - 1) + 1).toNat
      = (pre ++ comp).length := by
    omega
  unfold set_file_names
  simp only [h1, scan_loop_split pre comp hcomp hpre, List.length_reverse]
  have h2 : (((((pre ++ comp).length : Nat) : Int) - ((comp.length : Nat) : Int) - 1)
      + 1).toNat = pre.length := by
    rw [List.length_append]
    omega
  rw [h2, temp_dir_loop_eq _ _ _ (by rw [List.length_append]; omega)]
  have h3 : (pre ++ comp).take pre.length = pre := by
    rw [List.take_append_eq_append_take]
    simp
  have h4 : (pre ++ comp).take ((pre ++ comp).length - 4)
      = pre ++ comp.take (comp.length - 4) := by
    rw [List.take_append_eq_append_take, List.length_append]
    have e1 : pre.length + comp.length - 4 - pre.length = comp.length - 4 := by omega
    rw [e1, List.take_of_length_le (by omega)]
  rw [h3, h4]
  simp only [List.nil_append, List.reverse_reverse]
  rw [if_neg (by omega)]
  by_cases hg : geom_name = "NONE".toList
  · simp [hg]
  · simp [hg]

/-- C15 at the file name "dir/case.dat" with the geometry name "geo.pgm". -/
theorem set_file_names_splits_at_last_slash_witness :
    '/' ∉ "case.dat".toList ∧
    ("dir/".toList = [] ∨ "dir/".toList.getLast? = some '/') ∧
    4 ≤ "case.dat".toList.length ∧
    set_file_names
        { case_name := [], prefix_path := [], dict_name := [],
          geom_name := "geo.pgm".toList } ("dir/".toList ++ "case.dat".toList)
      = some
        { prefix_path := "dir/".toList
          case_name := "case.dat".toList.take ("case.dat".toList.length - 4)
          dict_name := ("dir/".toList ++ "case.dat".toList).take
            (("dir/".toList ++ "case.dat".toList).length - 4) ++ "_Output".toList
          geom_name := if "geo.pgm".toList = "NONE".toList then "geo.pgm".toList
            else "dir/".toList ++ "geo.pgm".toList } :=
  ⟨by decide, by decide, by decide,
    set_file_names_splits_at_last_slash.2 "dir/".toList "case.dat".toList []
      "geo.pgm".toList (by decide) (by decide) (by decide)⟩

end CFDLab
